import Mathlib

/-!
Verification development for the KnightsOfNear engine
(`src/main.py` of Offsida1288/KnightsOfNear).

The Python engine is embedded shallowly:
* Python `int` is `Int` (arbitrary precision, no overflow);
* Python `dict` is an association list (first-match lookup, in-place
  replacement on assignment to an existing key, append for a fresh key,
  removal of the entry for `del`) — exactly the observable behaviour of a
  `dict` whose keys are never duplicated;
* Python strings are Lean `String` / `List Char`; `str.strip`, `str.lower`,
  `str.zfill` and slicing are reimplemented below on the ASCII alphabet
  that addresses are drawn from;
* each method becomes a function `args → EngineState → Option KonErr × EngineState`
  returning the raised error (if any) together with the state the object
  holds after the call — a Python exception does not roll anything back, so
  the state component records any mutations made before the raise;
* `time.time()`-derived values are passed in as an explicit input.
-/

set_option maxRecDepth 40000

/-- ASCII whitespace recognised by Python's `str.strip()` (the address
alphabet never contains the non-ASCII space characters). -/
def pyIsSpace (c : Char) : Bool :=
  c = ' ' || c = '\t' || c = '\n' || c = '\r' || c = '\x0b' || c = '\x0c'

/-- Python `str.strip()`: drop whitespace from both ends. -/
def pyStrip (l : List Char) : List Char :=
  ((l.dropWhile pyIsSpace).reverse.dropWhile pyIsSpace).reverse

/-- Python `str.lower()` restricted to ASCII (addresses are ASCII). -/
def pyLower (l : List Char) : List Char :=
  l.map Char.toLower

/-- Python `str.zfill(w)`: left-pad with `'0'` to width `w`, keeping a
leading sign character in front of the padding. -/
def pyZfill (l : List Char) (w : Nat) : List Char :=
  if w ≤ l.length then l
  else
    match l with
    | [] => List.replicate w '0'
    | c :: rest =>
      if c = '+' || c = '-' then c :: (List.replicate (w - l.length) '0' ++ rest)
      else List.replicate (w - l.length) '0' ++ (c :: rest)

/-- Python slicing `s[-n:]` (for `s` a list of characters). -/
def lastN (l : List Char) (n : Nat) : List Char :=
  l.drop (l.length - n)

/-- `_normalize_addr` (src/main.py lines 345-349) on character lists:
strip, drop a literal `"0x"` prefix, lowercase, `zfill(40)`, keep the last
40 characters, and re-attach `"0x"`. -/
def normalize_addr_chars (l : List Char) : List Char :=
  let a := pyStrip l
  let b := if a.take 2 = ['0', 'x'] then a.drop 2 else a
  '0' :: 'x' :: lastN (pyZfill (pyLower b) 40) 40

/-- `_normalize_addr` on strings. -/
def normalize_addr (s : String) : String :=
  String.mk (normalize_addr_chars s.data)

/-- The zero sentinel `"0x" + "0" * 40`. -/
def zero_addr : String :=
  String.mk ('0' :: 'x' :: List.replicate 40 '0')

-- ---------------------------------------------------------------------
-- dict model: association lists with first-match semantics
-- ---------------------------------------------------------------------

/-- `d.get(k)` on the association-list model of a dict. -/
def alookup {α β : Type} [DecidableEq α] : List (α × β) → α → Option β
  | [], _ => none
  | (k, v) :: rest, key => if k = key then some v else alookup rest key

/-- `d[k] = v`: replace the first entry for `k` in place, or append a new
entry (Python dicts keep insertion order and never duplicate keys). -/
def aset {α β : Type} [DecidableEq α] : List (α × β) → α → β → List (α × β)
  | [], key, val => [(key, val)]
  | (k, v) :: rest, key, val =>
    if k = key then (key, val) :: rest else (k, v) :: aset rest key val

/-- `del d[k]`: remove the first entry for `k` (the caller must check
presence; Python raises `KeyError` when the key is absent). -/
def aerase {α β : Type} [DecidableEq α] : List (α × β) → α → List (α × β)
  | [], _ => []
  | (k, v) :: rest, key => if k = key then rest else (k, v) :: aerase rest key

/-- Sum of the stored values of an integer-valued dict. -/
def sumVals {α : Type} (l : List (α × Int)) : Int :=
  (l.map Prod.snd).sum

-- ---------------------------------------------------------------------
-- Constants (src/main.py lines 20-51)
-- ---------------------------------------------------------------------

def GOVERNANCE_ROUND : String := "0xe7f2a4c9b1d8e3f6a0c5b2d9e4f7a1c6b3d0e8f1"
def SEAT_REGISTRAR : String := "0x1b5e9c3a7d0f4e8b2c6a9d3f7b0e5c1a8d4f2e6b0"
def DEFAULT_FEE_RECIPIENT : String := "0x7c4d0f3a8e2b6c9d1f5a0e4b8c2d7f3a6e1b9c5d0"
def BURN_ADDRESS : String := "0x000000000000000000000000000000000000dEaD"

def KON_SCALE : Int := 10 ^ 18
def KON_INITIAL_SUPPLY : Int := 1000000000 * KON_SCALE
def KON_MAX_SUPPLY : Int := 2000000000 * KON_SCALE
def ROUND_TABLE_SEATS : Int := 150
def KOK_COLLECTION_SIZE : Int := 16
def KON_BASIS_POINTS : Int := 10000
def KON_MAX_FEE_BASIS : Int := 250
def KON_MIN_STAKE_FOR_SEAT : Int := 10000 * KON_SCALE
def MAX_CLAIM_PER_TX : Nat := 50

-- ---------------------------------------------------------------------
-- Enums, errors, events, seats (src/main.py lines 58-206)
-- ---------------------------------------------------------------------

inductive SeatStatus where
  | vacant
  | claimed
  | frozen
  deriving DecidableEq, Repr

inductive KOKRarity where
  | common
  | uncommon
  | rare
  | epic
  | legendary
  deriving DecidableEq, Repr

/-- The engine's error classes, plus Python's built-in `KeyError` (which
`release_seat` can raise from `del self._seat_by_knight[caller]`). -/
inductive KonErr where
  | tableGuardDenied
  | seatAlreadyClaimed
  | notAKnight
  | insufficientStake
  | zeroAddress
  | zeroAmount
  | exceedsBalance
  | exceedsAllowance
  | feeBasisTooHigh
  | kokIndexOutOfRange
  | kokAlreadyMinted
  | notKOKOwner
  | notGovernance
  | notRegistrar
  | tableNotUnlocked
  | claimBatchTooLarge
  | invalidSeatId
  | transferToZero
  | mintExceedsCap
  | keyError
  deriving DecidableEq, Repr

inductive KonEvent where
  | transferEv (from_addr to_addr : String) (amount : Int)
  | seatClaimedEv (seat_id : Int) (knight : String) (stake_amount : Int)
  | kokMintedEv (token_id : Int) (to_addr : String) (rarity : KOKRarity)
  | tableUnlockedEv (unlocked_by : String) (block_ts : Int)
  deriving DecidableEq, Repr

structure RoundTableSeat where
  seat_id : Int
  occupant : String
  stake_amount : Int
  claimed_at_block : Int
  status : SeatStatus
  deriving DecidableEq, Repr

/-- The seat record `claim_seat` installs out of range reads against; the
engine's seat dict always has keys `0..149`, so reachable code never sees
this default. -/
def defaultSeat : RoundTableSeat :=
  ⟨0, "", 0, 0, SeatStatus.vacant⟩

-- ---------------------------------------------------------------------
-- Engine state (fields of `KnightsOfNearEngine.__init__`, lines 368-391)
-- ---------------------------------------------------------------------

structure EngineState where
  genesis_block : Int
  balances : List (String × Int)
  allowances : List ((String × String) × Int)
  total_supply : Int
  seats : List RoundTableSeat
  seat_by_knight : List (String × Int)
  kok_owners : List (Int × String)
  kok_minted : List Bool
  table_unlocked : Bool
  unlock_block : Int
  transfer_fee_basis : Int
  fee_recipient : String
  events : List KonEvent
  mint_cap_used : Int
  deriving DecidableEq, Repr

-- ---------------------------------------------------------------------
-- Engine operations.  Each returns (raised error?, state after the call).
-- All validations/mutations appear in source order.
-- ---------------------------------------------------------------------

/-- `KnightsOfNearEngine._mint` (lines 395-402).  Note that `to` is
normalized (lowercase) before being compared with the mixed-case
`BURN_ADDRESS` literal, exactly as in the source. -/
def opMint (to_addr : String) (amount : Int) (s : EngineState) :
    Option KonErr × EngineState :=
  let toA := normalize_addr to_addr
  if ¬(toA ≠ BURN_ADDRESS ∧ toA ≠ zero_addr) then (some KonErr.zeroAddress, s)
  else if ¬(amount > 0) then (some KonErr.zeroAmount, s)
  else
    let new_total := s.total_supply + amount
    if ¬(new_total ≤ KON_MAX_SUPPLY) then (some KonErr.mintExceedsCap, s)
    else
      (none, { s with
        total_supply := new_total
        balances := aset s.balances toA ((alookup s.balances toA).getD 0 + amount) })

/-- `KnightsOfNearEngine._burn` (lines 404-409). -/
def opBurn (from_addr : String) (amount : Int) (s : EngineState) :
    Option KonErr × EngineState :=
  let from_addr := normalize_addr from_addr
  let bal := (alookup s.balances from_addr).getD 0
  if ¬(bal ≥ amount) then (some KonErr.exceedsBalance, s)
  else
    (none, { s with
      balances := aset s.balances from_addr (bal - amount)
      total_supply := s.total_supply - amount })

/-- `KnightsOfNearEngine.set_table_unlocked` (lines 414-419).  The value of
`genesis_block_if_you_need_it()` (`int(time.time()) // 12`) is passed in as
the explicit input `now_block`. -/
def opSetTableUnlocked (unlocked : Bool) (caller : String) (now_block : Int)
    (s : EngineState) : Option KonErr × EngineState :=
  let caller := normalize_addr caller
  if ¬(caller = normalize_addr GOVERNANCE_ROUND) then (some KonErr.notGovernance, s)
  else
    (none, { s with
      table_unlocked := unlocked
      unlock_block := now_block
      events := s.events ++ [KonEvent.tableUnlockedEv caller now_block] })

/-- `KnightsOfNearEngine.transfer` (lines 421-443).  Python's `//` is floor
division, `Int.fdiv` here; both operands are positive whenever the fee is
computed. -/
def opTransfer (from_addr to_addr : String) (amount : Int) (sender : String)
    (s : EngineState) : Option KonErr × EngineState :=
  let from_addr := normalize_addr from_addr
  let to_addr := normalize_addr to_addr
  let sender := normalize_addr sender
  if ¬(to_addr ≠ zero_addr) then (some KonErr.transferToZero, s)
  else if ¬(amount > 0) then (some KonErr.zeroAmount, s)
  else
    let bal := (alookup s.balances from_addr).getD 0
    if ¬(bal ≥ amount) then (some KonErr.exceedsBalance, s)
    else if sender ≠ from_addr ∧ ¬((alookup s.allowances (from_addr, sender)).getD 0 ≥ amount)
    then (some KonErr.exceedsAllowance, s)
    else
      let allowances1 :=
        if sender ≠ from_addr then
          aset s.allowances (from_addr, sender)
            ((alookup s.allowances (from_addr, sender)).getD 0 - amount)
        else s.allowances
      let fee : Int :=
        if s.transfer_fee_basis > 0 ∧ s.fee_recipient ≠ zero_addr then
          Int.fdiv (amount * s.transfer_fee_basis) KON_BASIS_POINTS
        else 0
      let net : Int := if fee > 0 then amount - fee else amount
      let balances1 := aset s.balances from_addr (bal - net - fee)
      let balances2 := aset balances1 to_addr ((alookup balances1 to_addr).getD 0 + net)
      let balances3 :=
        if fee > 0 then
          aset balances2 s.fee_recipient ((alookup balances2 s.fee_recipient).getD 0 + fee)
        else balances2
      (none, { s with
        balances := balances3
        allowances := allowances1
        events := s.events ++ [KonEvent.transferEv from_addr to_addr net] })

/-- `KnightsOfNearEngine.approve` (lines 445-450). -/
def opApprove (owner spender : String) (amount : Int) (s : EngineState) :
    Option KonErr × EngineState :=
  let owner := normalize_addr owner
  let spender := normalize_addr spender
  if ¬(owner ≠ zero_addr) then (some KonErr.zeroAddress, s)
  else if ¬(spender ≠ zero_addr) then (some KonErr.zeroAddress, s)
  else (none, { s with allowances := aset s.allowances (owner, spender) amount })

/-- `KnightsOfNearEngine.set_transfer_fee` (lines 452-456). -/
def opSetTransferFee (basis : Int) (caller : String) (s : EngineState) :
    Option KonErr × EngineState :=
  let caller := normalize_addr caller
  if ¬(caller = normalize_addr GOVERNANCE_ROUND) then (some KonErr.notGovernance, s)
  else if ¬(basis ≤ KON_MAX_FEE_BASIS) then (some KonErr.feeBasisTooHigh, s)
  else (none, { s with transfer_fee_basis := basis })

/-- `KnightsOfNearEngine.set_fee_recipient` (lines 458-462).  The zero
check is on the raw `recipient` argument, the stored value is normalized —
as in the source. -/
def opSetFeeRecipient (recipient caller : String) (s : EngineState) :
    Option KonErr × EngineState :=
  let caller := normalize_addr caller
  if ¬(caller = normalize_addr GOVERNANCE_ROUND) then (some KonErr.notGovernance, s)
  else if ¬(recipient ≠ zero_addr) then (some KonErr.zeroAddress, s)
  else (none, { s with fee_recipient := normalize_addr recipient })

/-- `KnightsOfNearEngine.claim_seat` (lines 464-483). -/
def opClaimSeat (seat_id : Int) (knight : String) (stake_amount : Int)
    (block_num : Int) (s : EngineState) : Option KonErr × EngineState :=
  if ¬(0 ≤ seat_id ∧ seat_id < ROUND_TABLE_SEATS) then (some KonErr.invalidSeatId, s)
  else
    let knight := normalize_addr knight
    if ¬s.table_unlocked then (some KonErr.tableNotUnlocked, s)
    else
      let seat := s.seats.getD seat_id.toNat defaultSeat
      if ¬(seat.status = SeatStatus.vacant) then (some KonErr.seatAlreadyClaimed, s)
      else if ¬(stake_amount ≥ KON_MIN_STAKE_FOR_SEAT) then (some KonErr.insufficientStake, s)
      else
        let bal := (alookup s.balances knight).getD 0
        if ¬(bal ≥ stake_amount) then (some KonErr.exceedsBalance, s)
        else
          (none, { s with
            balances := aset s.balances knight (bal - stake_amount)
            seats := s.seats.set seat_id.toNat
              ⟨seat_id, knight, stake_amount, block_num, SeatStatus.claimed⟩
            seat_by_knight := aset s.seat_by_knight knight seat_id
            events := s.events ++ [KonEvent.seatClaimedEv seat_id knight stake_amount] })

/-- `KnightsOfNearEngine.release_seat` (lines 485-501).  The seat record is
reset *before* `del self._seat_by_knight[caller]`; when the reverse index
has no entry for `caller` that `del` raises `KeyError`, leaving the reset
seat in place and skipping the refund — the error branch below returns the
partially mutated state, as the Python object would hold it. -/
def opReleaseSeat (seat_id : Int) (caller : String) (_block_num : Int)
    (s : EngineState) : Option KonErr × EngineState :=
  if ¬(0 ≤ seat_id ∧ seat_id < ROUND_TABLE_SEATS) then (some KonErr.invalidSeatId, s)
  else
    let caller := normalize_addr caller
    let seat := s.seats.getD seat_id.toNat defaultSeat
    if ¬(seat.occupant = caller) then (some KonErr.notAKnight, s)
    else if ¬(seat.status = SeatStatus.claimed) then (some KonErr.tableGuardDenied, s)
    else
      let amount := seat.stake_amount
      let s1 := { s with
        seats := s.seats.set seat_id.toNat ⟨seat_id, "", 0, 0, SeatStatus.vacant⟩ }
      if alookup s1.seat_by_knight caller = none then (some KonErr.keyError, s1)
      else
        let s2 := { s1 with seat_by_knight := aerase s1.seat_by_knight caller }
        (none, { s2 with
          balances := aset s2.balances caller ((alookup s2.balances caller).getD 0 + amount) })

-- ---------------------------------------------------------------------
-- KOK metadata (src/main.py lines 213-342).  Each Python metadata dict
-- holds its `attributes` *list by reference*; `dict.copy()` duplicates the
-- dict but not that list.  The embedding makes the reference explicit:
-- metadata records carry an index `attributes_ref` into the module-level
-- attribute store `KOK_ATTR_STORE`, and a shallow copy copies the index.
-- ---------------------------------------------------------------------

inductive KokAttrValue where
  | strV (v : String)
  | intV (v : Int)
  deriving DecidableEq, Repr

structure KokAttr where
  trait_type : String
  value : KokAttrValue
  deriving DecidableEq, Repr

structure KokMeta where
  token_id : Int
  name : String
  description : String
  rarity : KOKRarity
  attributes_ref : Nat
  image_hash : String
  deriving DecidableEq, Repr

/-- One `[{"trait_type": "Title", ...}, {"trait_type": "Power", ...}]`
attribute list. -/
def mkAttrs (title : String) (power : Int) : List KokAttr :=
  [⟨"Title", KokAttrValue.strV title⟩, ⟨"Power", KokAttrValue.intV power⟩]

/-- The sixteen canonical `attributes` lists, in token-id order. -/
def KOK_ATTR_STORE : List (List KokAttr) :=
  [mkAttrs "High King" 98, mkAttrs "Prophet" 95, mkAttrs "First Knight" 94,
   mkAttrs "Bridge Keeper" 90, mkAttrs "Green Knight" 88, mkAttrs "Grail Seeker" 85,
   mkAttrs "Oathbound" 82, mkAttrs "Virtuous" 87, mkAttrs "Marshal" 78,
   mkAttrs "Seneschal" 75, mkAttrs "Twin Knight" 76, mkAttrs "Foster" 74,
   mkAttrs "Bold" 70, mkAttrs "Fair" 68, mkAttrs "Sharp" 65, mkAttrs "Shadow" 72]

/-- `KOK_METADATA`; the `image_hash` strings are the values of the
`"0x" + sha256(...).hexdigest()[:64]` expressions in the source. -/
def KOK_METADATA : List KokMeta :=
  [⟨0, "Arthur of Near", "Sovereign of the Round Table. One blade to bind them.",
    KOKRarity.legendary, 0, "0x9e92d4de0be28edba2832248669c426e4197e91a115f7ce64d418904fd28bf8c"⟩,
   ⟨1, "Merlin the Seer", "Oracle of NEAR. Sees across chains.",
    KOKRarity.legendary, 1, "0x16f05072a838113ef9e60c242affcccdc17c536740b24d8fc2f099f270312808"⟩,
   ⟨2, "Lancelot the Pure", "Champion of the realm. Unbroken in battle.",
    KOKRarity.epic, 2, "0xf9a7ae67d905788bcdaddbb41a9c2f3c6f3397481e433702c1846f7700cc7b83"⟩,
   ⟨3, "Guinevere of the Gate", "Keeper of the bridge between NEAR and EVM.",
    KOKRarity.epic, 3, "0x390981ebf9e9bc460cecea9fcd9a133589ec42986308e4fbf42af6e8243587dc"⟩,
   ⟨4, "Gawain the Green", "Guardian of the green layer. Staking champion.",
    KOKRarity.epic, 4, "0x79af58793d3b3578f43a8cc93e8aa1b088c71b8493d57bca78e686a9f2473931"⟩,
   ⟨5, "Percival the Seeker", "Quest for the grail across L1 and L2.",
    KOKRarity.rare, 5, "0x16ba616e2315905c14bfaa12642bd3128cfc6402ec22ea160391d7beec4e7a68"⟩,
   ⟨6, "Tristan the Bound", "Bound to the chain. Loyalty immutable.",
    KOKRarity.rare, 6, "0x1b595d951b95420c05db2a0756d65a4a19dcf218fe91d5e17d7da9c6769168ee"⟩,
   ⟨7, "Galahad the Virtuous", "Pure of heart. First to the round table.",
    KOKRarity.rare, 7, "0xa84dd80a6640ee5881248936322066c14648dfcd72d55023d20ec6506431dae2"⟩,
   ⟨8, "Bedivere the Marshal", "Marshal of the table. Order in chaos.",
    KOKRarity.uncommon, 8, "0x51cea098e24d93c619dd7bbd84b2198d3cf314515c646bd803ad50f1317c1cd5"⟩,
   ⟨9, "Kay the Seneschal", "Keeper of the keys. Access control.",
    KOKRarity.uncommon, 9, "0x9888c2a4b68d5c80cc38eb2156436e1b69a7d9ddd55213d185913cee5fa3245d"⟩,
   ⟨10, "Bors the Twin", "Dual-chain knight. NEAR and EVM.",
    KOKRarity.uncommon, 10, "0x7f95496a23aeaff6a7fe8b38c8f38810b7349933db305fb0d1ec9feb58330613"⟩,
   ⟨11, "Ector the Foster", "Raised the king. Guardian of the realm.",
    KOKRarity.uncommon, 11, "0xf63a2c9c695a38a8993db00ac1e56318a3bd88daf0f356815c718a2da641f8d8"⟩,
   ⟨12, "Lamorak the Bold", "Bold in battle. No rollback.",
    KOKRarity.common, 12, "0x702de29a3878a80016fa24fd3f819759cc4b76007d6b891f3157bf4d763b74d5"⟩,
   ⟨13, "Gareth the Fair", "Fair in governance. One vote, one knight.",
    KOKRarity.common, 13, "0x585638bd7621152bfbcd702bd083ee9788dcf37d0ec3695eea7e2058b92a1045"⟩,
   ⟨14, "Agravain the Sharp", "Sharp wit. Smart contract reviewer.",
    KOKRarity.common, 14, "0x62e629162cddcdedf33d0108859b3b4c7ca246d5c99f09852d2940ee84a02363"⟩,
   ⟨15, "Mordred the Shadow", "Shadow of the table. Testnet knight.",
    KOKRarity.common, 15, "0xb91e71eab095a73bcdde6c90200d141a2c3c895bf479012f6802b0927d15ed39"⟩]

def defaultMeta : KokMeta :=
  ⟨0, "", "", KOKRarity.common, 0, ""⟩

/-- `KnightsOfNearEngine.get_kok_metadata` (lines 549-552):
`KOK_METADATA[token_id].copy()` — a *shallow* copy, so the returned record
carries the same `attributes_ref` as the canonical table entry. -/
def get_kok_metadata (token_id : Int) : Option KokMeta :=
  if 0 ≤ token_id ∧ token_id < KOK_COLLECTION_SIZE then
    some (KOK_METADATA.getD token_id.toNat defaultMeta)
  else none

/-- An external caller mutating the `attributes` list reached through a
returned metadata record: `returned["attributes"].append(a)` updates the
store cell that `attributes_ref` points at. -/
def appendAttrThroughCopy (store : List (List KokAttr)) (m : KokMeta)
    (a : KokAttr) : List (List KokAttr) :=
  store.set m.attributes_ref (store.getD m.attributes_ref [] ++ [a])

/-- The canonical table's view of token `i`'s attribute list. -/
def canonicalAttributes (store : List (List KokAttr)) (i : Nat) : List KokAttr :=
  store.getD i []

-- ---------------------------------------------------------------------
-- Remaining operations
-- ---------------------------------------------------------------------

/-- `KnightsOfNearEngine.mint_kok` (lines 509-520). -/
def opMintKok (token_id : Int) (to_addr caller : String) (s : EngineState) :
    Option KonErr × EngineState :=
  if ¬(0 ≤ token_id ∧ token_id < KOK_COLLECTION_SIZE) then (some KonErr.kokIndexOutOfRange, s)
  else if ¬(¬(s.kok_minted.getD token_id.toNat false = true)) then (some KonErr.kokAlreadyMinted, s)
  else
    let caller := normalize_addr caller
    let to_addr := normalize_addr to_addr
    if ¬(caller = normalize_addr SEAT_REGISTRAR) then (some KonErr.notRegistrar, s)
    else if ¬(to_addr ≠ zero_addr) then (some KonErr.zeroAddress, s)
    else
      let meta := KOK_METADATA.getD token_id.toNat defaultMeta
      (none, { s with
        kok_minted := s.kok_minted.set token_id.toNat true
        kok_owners := aset s.kok_owners token_id to_addr
        events := s.events ++ [KonEvent.kokMintedEv token_id to_addr meta.rarity] })

/-- `KnightsOfNearEngine.transfer_kok` (lines 522-530). -/
def opTransferKok (token_id : Int) (from_addr to_addr sender : String)
    (s : EngineState) : Option KonErr × EngineState :=
  if ¬(0 ≤ token_id ∧ token_id < KOK_COLLECTION_SIZE) then (some KonErr.kokIndexOutOfRange, s)
  else
    let from_addr := normalize_addr from_addr
    let to_addr := normalize_addr to_addr
    let sender := normalize_addr sender
    if ¬(alookup s.kok_owners token_id = some from_addr) then (some KonErr.notKOKOwner, s)
    else if ¬(sender = from_addr) then (some KonErr.notKOKOwner, s)
    else if ¬(to_addr ≠ zero_addr) then (some KonErr.zeroAddress, s)
    else (none, { s with kok_owners := aset s.kok_owners token_id to_addr })

/-- `KnightsOfNearEngine.clear_events` (lines 557-558). -/
def opClearEvents (s : EngineState) : Option KonErr × EngineState :=
  (none, { s with events := [] })

/-- The loop body of `batch_claim_seats` (lines 601-602): claims applied
sequentially; the first raising claim stops the loop with the state the
engine holds at that point. -/
def batchGo (claims : List (Int × String × Int)) (block_num : Int)
    (s : EngineState) : Option KonErr × EngineState :=
  match claims with
  | [] => (none, s)
  | (sid, knight, stake) :: rest =>
    let r := opClaimSeat sid knight stake block_num s
    if r.1.isSome then r else batchGo rest block_num r.2

/-- `batch_claim_seats` (lines 595-602). -/
def batch_claim_seats (claims : List (Int × String × Int)) (block_num : Int)
    (s : EngineState) : Option KonErr × EngineState :=
  if ¬(claims.length ≤ MAX_CLAIM_PER_TX) then (some KonErr.claimBatchTooLarge, s)
  else batchGo claims block_num s

-- ---------------------------------------------------------------------
-- Construction and read-only queries
-- ---------------------------------------------------------------------

/-- The state `__init__` (lines 368-391) builds just before its final
`self._mint(GOVERNANCE_ROUND, KON_INITIAL_SUPPLY)` call. -/
def initBase (genesis_block : Int) : EngineState where
  genesis_block := genesis_block
  balances := []
  allowances := []
  total_supply := 0
  seats := (List.range 150).map
    (fun (i : Nat) => ⟨(i : Int), "", 0, 0, SeatStatus.vacant⟩)
  seat_by_knight := []
  kok_owners := []
  kok_minted := List.replicate 16 false
  table_unlocked := false
  unlock_block := 0
  transfer_fee_basis := 50
  fee_recipient := normalize_addr DEFAULT_FEE_RECIPIENT
  events := []
  mint_cap_used := 0

/-- A freshly constructed `KnightsOfNearEngine(genesis_block)`. -/
def initEngine (genesis_block : Int) : EngineState :=
  (opMint GOVERNANCE_ROUND KON_INITIAL_SUPPLY (initBase genesis_block)).2

/-- `balance_of` (lines 532-533). -/
def balance_of (s : EngineState) (addr : String) : Int :=
  (alookup s.balances (normalize_addr addr)).getD 0

/-- `allowance` (lines 535-536). -/
def allowanceOf (s : EngineState) (owner spender : String) : Int :=
  (alookup s.allowances (normalize_addr owner, normalize_addr spender)).getD 0

/-- Total stake currently escrowed in seat records. -/
def sumStakes (seats : List RoundTableSeat) : Int :=
  (seats.map RoundTableSeat.stake_amount).sum

-- ---------------------------------------------------------------------
-- The public operation set and reachability
-- ---------------------------------------------------------------------

/-- One invocation of a state-changing public operation (the methods of §4
of the spec plus the module-level batch helper).  `_mint`/`_burn` are
internal-only and appear in no public code path except `__init__`. -/
inductive KonOp where
  | transfer (from_addr to_addr : String) (amount : Int) (sender : String)
  | approve (owner spender : String) (amount : Int)
  | setTransferFee (basis : Int) (caller : String)
  | setFeeRecipient (recipient caller : String)
  | claimSeat (seat_id : Int) (knight : String) (stake_amount block_num : Int)
  | releaseSeat (seat_id : Int) (caller : String) (block_num : Int)
  | mintKok (token_id : Int) (to_addr caller : String)
  | transferKok (token_id : Int) (from_addr to_addr sender : String)
  | setTableUnlocked (unlocked : Bool) (caller : String) (now_block : Int)
  | batchClaimSeats (claims : List (Int × String × Int)) (block_num : Int)
  | clearEvents

def applyOp : KonOp → EngineState → Option KonErr × EngineState
  | KonOp.transfer f t a snd, s => opTransfer f t a snd s
  | KonOp.approve o sp a, s => opApprove o sp a s
  | KonOp.setTransferFee b c, s => opSetTransferFee b c s
  | KonOp.setFeeRecipient r c, s => opSetFeeRecipient r c s
  | KonOp.claimSeat sid k st blk, s => opClaimSeat sid k st blk s
  | KonOp.releaseSeat sid c blk, s => opReleaseSeat sid c blk s
  | KonOp.mintKok tid t c, s => opMintKok tid t c s
  | KonOp.transferKok tid f t snd, s => opTransferKok tid f t snd s
  | KonOp.setTableUnlocked u c now, s => opSetTableUnlocked u c now s
  | KonOp.batchClaimSeats cl blk, s => batch_claim_seats cl blk s
  | KonOp.clearEvents, s => opClearEvents s

/-- One public operation completing without raising. -/
def StepOk (s s' : EngineState) : Prop :=
  ∃ op, applyOp op s = (none, s')

/-- States an engine instance can be driven to through public operations
that complete without raising. -/
def Reachable (s : EngineState) : Prop :=
  ∃ g, Relation.ReflTransGen StepOk (initEngine g) s

-- ---------------------------------------------------------------------
-- Association-list (dict) lemmas
-- ---------------------------------------------------------------------

theorem alookup_aset_self {α β : Type} [DecidableEq α] (l : List (α × β))
    (k : α) (v : β) : alookup (aset l k v) k = some v := by
  induction l with
  | nil => simp [aset, alookup]
  | cons p rest ih =>
    obtain ⟨pk, pv⟩ := p
    by_cases h : pk = k
    · simp [aset, alookup, h]
    · simp [aset, alookup, h, ih]

theorem alookup_aset_ne {α β : Type} [DecidableEq α] (l : List (α × β))
    (k k' : α) (v : β) (h : k' ≠ k) :
    alookup (aset l k v) k' = alookup l k' := by
  have hkk : k ≠ k' := Ne.symm h
  induction l with
  | nil => simp [aset, alookup, hkk]
  | cons p rest ih =>
    obtain ⟨pk, pv⟩ := p
    by_cases hpk : pk = k
    · subst hpk
      simp [aset, alookup, hkk]
    · simp [aset, alookup, hpk, ih]

theorem sumVals_aset {α : Type} [DecidableEq α] (l : List (α × Int))
    (k : α) (v : Int) :
    sumVals (aset l k v) = sumVals l + v - (alookup l k).getD 0 := by
  induction l with
  | nil => simp [aset, alookup, sumVals]
  | cons p rest ih =>
    obtain ⟨pk, pv⟩ := p
    by_cases h : pk = k
    · simp [aset, alookup, h, sumVals]
      ring
    · simp [aset, alookup, h, sumVals] at ih ⊢
      omega

theorem mem_aset {α β : Type} [DecidableEq α] {l : List (α × β)}
    {k : α} {v : β} {x : α × β} (hx : x ∈ aset l k v) :
    x = (k, v) ∨ x ∈ l := by
  induction l with
  | nil => simpa [aset] using hx
  | cons p rest ih =>
    obtain ⟨pk, pv⟩ := p
    by_cases h : pk = k
    · simp [aset, h] at hx
      rcases hx with hx | hx
      · exact Or.inl (by simp [hx])
      · exact Or.inr (by simp [hx])
    · simp [aset, h] at hx
      rcases hx with hx | hx
      · exact Or.inr (by simp [hx])
      · rcases ih hx with hx' | hx'
        · exact Or.inl hx'
        · exact Or.inr (by simp [hx'])

theorem akeys_aset {α β : Type} [DecidableEq α] (l : List (α × β))
    (k : α) (v : β) (hk : (alookup l k).isSome) :
    (aset l k v).map Prod.fst = l.map Prod.fst := by
  induction l with
  | nil => simp [alookup] at hk
  | cons p rest ih =>
    obtain ⟨pk, pv⟩ := p
    by_cases h : pk = k
    · simp [aset, h]
    · simp [alookup, h] at hk
      simp [aset, h, ih hk]

theorem akeys_aset_new {α β : Type} [DecidableEq α] (l : List (α × β))
    (k : α) (v : β) (hk : alookup l k = none) :
    (aset l k v).map Prod.fst = l.map Prod.fst ++ [k] := by
  induction l with
  | nil => simp [aset]
  | cons p rest ih =>
    obtain ⟨pk, pv⟩ := p
    by_cases h : pk = k
    · simp [alookup, h] at hk
    · simp [alookup, h] at hk
      simp [aset, h, ih hk]

theorem alookup_eq_none_iff {α β : Type} [DecidableEq α] (l : List (α × β))
    (k : α) : alookup l k = none ↔ k ∉ l.map Prod.fst := by
  induction l with
  | nil => simp [alookup]
  | cons p rest ih =>
    obtain ⟨pk, pv⟩ := p
    by_cases h : pk = k
    · simp [alookup, h]
    · simp [alookup, h, ih, Ne.symm h]

theorem aset_nodup {α β : Type} [DecidableEq α] (l : List (α × β))
    (k : α) (v : β) (hl : (l.map Prod.fst).Nodup) :
    ((aset l k v).map Prod.fst).Nodup := by
  cases hk : alookup l k with
  | none => 
    rw [akeys_aset_new l k v hk]
    refine List.Nodup.append hl (by simp) ?_
    intro a ha hb
    simp at hb
    rw [alookup_eq_none_iff] at hk
    exact hk (hb ▸ ha)
  | some w =>
    rw [akeys_aset l k v (by simp [hk])]
    exact hl

theorem mem_aerase {α β : Type} [DecidableEq α] {l : List (α × β)} {k : α}
    {x : α × β} (hx : x ∈ aerase l k) : x ∈ l := by
  induction l with
  | nil => simp [aerase] at hx
  | cons p rest ih =>
    obtain ⟨pk, pv⟩ := p
    by_cases h : pk = k
    · simp [aerase, h] at hx
      exact List.mem_cons_of_mem _ hx
    · simp [aerase, h] at hx
      rcases hx with hx | hx
      · simp [hx]
      · exact List.mem_cons_of_mem _ (ih hx)

theorem akeys_aerase_sublist {α β : Type} [DecidableEq α] (l : List (α × β))
    (k : α) : ((aerase l k).map Prod.fst).Sublist (l.map Prod.fst) := by
  induction l with
  | nil => simp [aerase]
  | cons p rest ih =>
    obtain ⟨pk, pv⟩ := p
    by_cases h : pk = k
    · simp only [aerase, if_pos h]
      exact (List.sublist_cons_self _ _).map Prod.fst
    · simpa [aerase, h] using ih.cons₂ pk

theorem aerase_nodup {α β : Type} [DecidableEq α] (l : List (α × β)) (k : α)
    (hl : (l.map Prod.fst).Nodup) : ((aerase l k).map Prod.fst).Nodup :=
  (akeys_aerase_sublist l k).nodup hl

theorem alookup_aerase_self {α β : Type} [DecidableEq α] (l : List (α × β))
    (k : α) (hl : (l.map Prod.fst).Nodup) : alookup (aerase l k) k = none := by
  induction l with
  | nil => simp [aerase, alookup]
  | cons p rest ih =>
    obtain ⟨pk, pv⟩ := p
    simp only [List.map_cons, List.nodup_cons] at hl
    by_cases h : pk = k
    · subst h
      rw [aerase, if_pos rfl, alookup_eq_none_iff]
      exact hl.1
    · simp [aerase, alookup, h]
      exact ih hl.2

theorem alookup_aerase_ne {α β : Type} [DecidableEq α] (l : List (α × β))
    (k k' : α) (h : k' ≠ k) : alookup (aerase l k) k' = alookup l k' := by
  have hkk : k ≠ k' := Ne.symm h
  induction l with
  | nil => simp [aerase]
  | cons p rest ih =>
    obtain ⟨pk, pv⟩ := p
    by_cases hpk : pk = k
    · subst hpk
      simp [aerase, alookup, hkk]
    · simp [aerase, alookup, hpk, ih]

theorem sumVals_aerase {α : Type} [DecidableEq α] (l : List (α × Int))
    (k : α) :
    sumVals (aerase l k) = sumVals l - ((alookup l k).getD 0) := by
  induction l with
  | nil => simp [aerase, alookup, sumVals]
  | cons p rest ih =>
    obtain ⟨pk, pv⟩ := p
    by_cases h : pk = k
    · simp [aerase, alookup, h, sumVals]
    · simp [aerase, alookup, h, sumVals] at ih ⊢
      omega

-- ---------------------------------------------------------------------
-- List.set / getD lemmas for the seat pool
-- ---------------------------------------------------------------------

theorem getD_set_self {α : Type} (l : List α) (i : Nat) (x d : α)
    (h : i < l.length) : (l.set i x).getD i d = x := by
  induction l generalizing i with
  | nil => simp at h
  | cons a rest ih =>
    cases i with
    | zero => simp [List.set]
    | succ n =>
      simp at h
      simpa [List.set] using ih n (by omega)

theorem getD_set_ne {α : Type} (l : List α) (i j : Nat) (x d : α)
    (h : j ≠ i) : (l.set i x).getD j d = l.getD j d := by
  induction l generalizing i j with
  | nil => simp [List.set]
  | cons a rest ih =>
    cases i with
    | zero =>
      cases j with
      | zero => omega
      | succ m => simp [List.set]
    | succ n =>
      cases j with
      | zero => simp [List.set]
      | succ m => simpa [List.set] using ih n m (by omega)

theorem sumStakes_set (l : List RoundTableSeat) (i : Nat) (x : RoundTableSeat)
    (h : i < l.length) :
    sumStakes (l.set i x) =
      sumStakes l - (l.getD i defaultSeat).stake_amount + x.stake_amount := by
  induction l generalizing i with
  | nil => simp at h
  | cons a rest ih =>
    cases i with
    | zero => simp [List.set, sumStakes]; ring
    | succ n =>
      simp at h
      have := ih n (by omega)
      simp [List.set, sumStakes] at this ⊢
      omega

theorem getD_mem {α : Type} (l : List α) (i : Nat) (d : α)
    (h : i < l.length) : l.getD i d ∈ l := by
  induction l generalizing i with
  | nil => simp at h
  | cons a rest ih =>
    cases i with
    | zero => simp
    | succ n =>
      simp at h
      exact List.mem_cons_of_mem _ (ih n (by omega))

theorem getD_map_range {α : Type} (f : Nat → α) (n i : Nat) (d : α)
    (h : i < n) : ((List.range n).map f).getD i d = f i := by
  simp [List.getD_eq_getElem?_getD, List.getElem?_map, List.getElem?_range, h]

theorem normalize_addr_ne_empty (s : String) : normalize_addr s ≠ "" := by
  intro h
  have h2 := congrArg String.data h
  simp [normalize_addr, normalize_addr_chars] at h2

-- ---------------------------------------------------------------------
-- The structural invariant maintained by every successfully completing
-- public operation
-- ---------------------------------------------------------------------

/-- Structural facts holding in every state reachable through raising-free
public operations: the seat pool is the fixed 150-entry table with matching
ids, reverse-index keys are unique (it models a dict), tokens are conserved
between balances and seat escrow, the supply cap holds, seat status and
occupant agree, vacant seats hold no stake, and every reverse-index entry
points at a seat claimed by exactly that knight. -/
structure Good (s : EngineState) : Prop where
  seats_len : s.seats.length = 150
  seat_ids : ∀ i : Nat, i < 150 → (s.seats.getD i defaultSeat).seat_id = (i : Int)
  idx_nodup : (s.seat_by_knight.map Prod.fst).Nodup
  conservation : sumVals s.balances + sumStakes s.seats = s.total_supply
  cap : s.total_supply ≤ KON_MAX_SUPPLY
  status_occ : ∀ st ∈ s.seats, (st.status = SeatStatus.claimed ↔ st.occupant ≠ "")
  vacant_stake : ∀ st ∈ s.seats, st.status = SeatStatus.vacant → st.stake_amount = 0
  idx_sound : ∀ k sid, alookup s.seat_by_knight k = some sid →
    0 ≤ sid ∧ sid.toNat < 150 ∧
    (s.seats.getD sid.toNat defaultSeat).occupant = k ∧
    (s.seats.getD sid.toNat defaultSeat).status = SeatStatus.claimed

theorem good_opApprove {s s' : EngineState} {o sp : String} {a : Int}
    (hg : Good s) (h : opApprove o sp a s = (none, s')) : Good s' := by
  simp only [opApprove] at h
  split_ifs at h
  all_goals simp only [Prod.mk.injEq] at h
  all_goals obtain ⟨-, rfl⟩ := h
  all_goals exact ⟨hg.seats_len, hg.seat_ids, hg.idx_nodup, hg.conservation, hg.cap,
    hg.status_occ, hg.vacant_stake, hg.idx_sound⟩

theorem good_opSetTransferFee {s s' : EngineState} {b : Int} {c : String}
    (hg : Good s) (h : opSetTransferFee b c s = (none, s')) : Good s' := by
  simp only [opSetTransferFee] at h
  split_ifs at h
  all_goals simp only [Prod.mk.injEq] at h
  all_goals obtain ⟨-, rfl⟩ := h
  all_goals exact ⟨hg.seats_len, hg.seat_ids, hg.idx_nodup, hg.conservation, hg.cap,
    hg.status_occ, hg.vacant_stake, hg.idx_sound⟩

theorem good_opSetFeeRecipient {s s' : EngineState} {r c : String}
    (hg : Good s) (h : opSetFeeRecipient r c s = (none, s')) : Good s' := by
  simp only [opSetFeeRecipient] at h
  split_ifs at h
  all_goals simp only [Prod.mk.injEq] at h
  all_goals obtain ⟨-, rfl⟩ := h
  all_goals exact ⟨hg.seats_len, hg.seat_ids, hg.idx_nodup, hg.conservation, hg.cap,
    hg.status_occ, hg.vacant_stake, hg.idx_sound⟩

theorem good_opSetTableUnlocked {s s' : EngineState} {u : Bool} {c : String}
    {now : Int} (hg : Good s) (h : opSetTableUnlocked u c now s = (none, s')) :
    Good s' := by
  simp only [opSetTableUnlocked] at h
  split_ifs at h
  all_goals simp only [Prod.mk.injEq] at h
  all_goals obtain ⟨-, rfl⟩ := h
  all_goals exact ⟨hg.seats_len, hg.seat_ids, hg.idx_nodup, hg.conservation, hg.cap,
    hg.status_occ, hg.vacant_stake, hg.idx_sound⟩

theorem good_opMintKok {s s' : EngineState} {tid : Int} {t c : String}
    (hg : Good s) (h : opMintKok tid t c s = (none, s')) : Good s' := by
  simp only [opMintKok] at h
  split_ifs at h
  all_goals simp only [Prod.mk.injEq] at h
  all_goals obtain ⟨-, rfl⟩ := h
  all_goals exact ⟨hg.seats_len, hg.seat_ids, hg.idx_nodup, hg.conservation, hg.cap,
    hg.status_occ, hg.vacant_stake, hg.idx_sound⟩

theorem good_opTransferKok {s s' : EngineState} {tid : Int} {f t snd : String}
    (hg : Good s) (h : opTransferKok tid f t snd s = (none, s')) : Good s' := by
  simp only [opTransferKok] at h
  split_ifs at h
  all_goals simp only [Prod.mk.injEq] at h
  all_goals obtain ⟨-, rfl⟩ := h
  all_goals exact ⟨hg.seats_len, hg.seat_ids, hg.idx_nodup, hg.conservation, hg.cap,
    hg.status_occ, hg.vacant_stake, hg.idx_sound⟩

theorem good_opClearEvents {s s' : EngineState}
    (hg : Good s) (h : opClearEvents s = (none, s')) : Good s' := by
  simp only [opClearEvents, Prod.mk.injEq, true_and] at h
  subst h
  exact ⟨hg.seats_len, hg.seat_ids, hg.idx_nodup, hg.conservation, hg.cap,
    hg.status_occ, hg.vacant_stake, hg.idx_sound⟩

theorem good_opTransfer {s s' : EngineState} {f t : String} {a : Int}
    {snd : String} (hg : Good s) (h : opTransfer f t a snd s = (none, s')) :
    Good s' := by
  simp only [opTransfer] at h
  split_ifs at h
  all_goals simp only [Prod.mk.injEq] at h
  all_goals obtain ⟨-, rfl⟩ := h
  all_goals try exact ⟨hg.seats_len, hg.seat_ids, hg.idx_nodup, hg.conservation,
    hg.cap, hg.status_occ, hg.vacant_stake, hg.idx_sound⟩
  all_goals refine ⟨hg.seats_len, hg.seat_ids, hg.idx_nodup, ?_, hg.cap,
    hg.status_occ, hg.vacant_stake, hg.idx_sound⟩
  all_goals simp only [sumVals_aset]
  all_goals have hc := hg.conservation
  all_goals try have hf : 0 ≤ (a * s.transfer_fee_basis).fdiv KON_BASIS_POINTS :=
    Int.fdiv_nonneg (mul_nonneg (by omega) (by omega)) (by norm_num [KON_BASIS_POINTS])
  all_goals omega

theorem good_opClaimSeat {s s' : EngineState} {sid : Int} {k : String}
    {stk blk : Int} (hg : Good s)
    (h : opClaimSeat sid k stk blk s = (none, s')) : Good s' := by
  simp only [opClaimSeat] at h
  split_ifs at h with h1 h2 h3 h4 h5
  all_goals simp only [Prod.mk.injEq] at h
  all_goals obtain ⟨-, rfl⟩ := h
  all_goals try exact ⟨hg.seats_len, hg.seat_ids, hg.idx_nodup, hg.conservation,
    hg.cap, hg.status_occ, hg.vacant_stake, hg.idx_sound⟩
  have h1' : 0 ≤ sid ∧ sid < 150 := by simpa [ROUND_TABLE_SEATS] using h1
  have hlen : sid.toNat < s.seats.length := by rw [hg.seats_len]; omega
  have hmem := getD_mem s.seats sid.toNat defaultSeat hlen
  have hzero := hg.vacant_stake _ hmem h3
  refine ⟨?_, ?_, ?_, ?_, hg.cap, ?_, ?_, ?_⟩
  · simpa [List.length_set] using hg.seats_len
  · intro i hi
    by_cases hii : i = sid.toNat
    · subst hii
      rw [getD_set_self _ _ _ _ hlen]
      simp only []
      omega
    · rw [getD_set_ne _ _ _ _ _ (fun hc => hii hc)]
      exact hg.seat_ids i hi
  · exact aset_nodup _ _ _ hg.idx_nodup
  · rw [sumVals_aset, sumStakes_set _ _ _ hlen]
    have hc := hg.conservation
    simp only []
    omega
  · intro st hst
    rcases List.mem_or_eq_of_mem_set hst with hst' | hst'
    · exact hg.status_occ st hst'
    · subst hst'
      simpa using normalize_addr_ne_empty k
  · intro st hst
    rcases List.mem_or_eq_of_mem_set hst with hst' | hst'
    · exact hg.vacant_stake st hst'
    · subst hst'
      intro hv
      simp at hv
  · intro k2 sid2 hlk
    by_cases hk2 : k2 = normalize_addr k
    · subst hk2
      rw [alookup_aset_self] at hlk
      obtain rfl : sid = sid2 := by simpa using hlk
      refine ⟨by omega, by omega, ?_, ?_⟩
      · rw [getD_set_self _ _ _ _ hlen]
      · rw [getD_set_self _ _ _ _ hlen]
    · rw [alookup_aset_ne _ _ _ _ hk2] at hlk
      obtain ⟨ha, hb, hc, hd⟩ := hg.idx_sound k2 sid2 hlk
      by_cases hss : sid2.toNat = sid.toNat
      · exfalso
        rw [hss] at hd
        rw [h3] at hd
        simp at hd
      · rw [getD_set_ne _ _ _ _ _ hss]
        exact ⟨ha, hb, hc, hd⟩

theorem good_opReleaseSeat {s s' : EngineState} {sid : Int} {c : String}
    {blk : Int} (hg : Good s)
    (h : opReleaseSeat sid c blk s = (none, s')) : Good s' := by
  simp only [opReleaseSeat] at h
  split_ifs at h with h1 h2 h3 h4
  all_goals simp only [Prod.mk.injEq] at h
  all_goals try exact Option.noConfusion h.1
  obtain ⟨-, rfl⟩ := h
  have h1' : 0 ≤ sid ∧ sid < 150 := by simpa [ROUND_TABLE_SEATS] using h1
  have hlen : sid.toNat < s.seats.length := by rw [hg.seats_len]; omega
  refine ⟨?_, ?_, ?_, ?_, hg.cap, ?_, ?_, ?_⟩
  · simpa [List.length_set] using hg.seats_len
  · intro i hi
    by_cases hii : i = sid.toNat
    · subst hii
      rw [getD_set_self _ _ _ _ hlen]
      simp only []
      omega
    · rw [getD_set_ne _ _ _ _ _ (fun hc => hii hc)]
      exact hg.seat_ids i hi
  · exact aerase_nodup _ _ hg.idx_nodup
  · rw [sumVals_aset, sumStakes_set _ _ _ hlen]
    have hc := hg.conservation
    simp only []
    omega
  · intro st hst
    rcases List.mem_or_eq_of_mem_set hst with hst' | hst'
    · exact hg.status_occ st hst'
    · subst hst'
      simp
  · intro st hst
    rcases List.mem_or_eq_of_mem_set hst with hst' | hst'
    · exact hg.vacant_stake st hst'
    · subst hst'
      intro hv
      simp
  · intro k2 sid2 hlk
    by_cases hk2 : k2 = normalize_addr c
    · subst hk2
      rw [alookup_aerase_self _ _ hg.idx_nodup] at hlk
      exact Option.noConfusion hlk
    · rw [alookup_aerase_ne _ _ _ hk2] at hlk
      obtain ⟨ha, hb, hc, hd⟩ := hg.idx_sound k2 sid2 hlk
      by_cases hss : sid2.toNat = sid.toNat
      · exfalso
        rw [hss] at hc
        rw [h2] at hc
        exact hk2 hc.symm
      · rw [getD_set_ne _ _ _ _ _ hss]
        exact ⟨ha, hb, hc, hd⟩

/-- `claim_seat` is check-then-mutate: a raising call leaves the state as
it was. -/
theorem opClaimSeat_err_frame {s s1 : EngineState} {sid : Int} {k : String}
    {stk blk : Int} {e : KonErr}
    (h : opClaimSeat sid k stk blk s = (some e, s1)) : s1 = s := by
  simp only [opClaimSeat] at h
  split_ifs at h
  all_goals simp only [Prod.mk.injEq] at h
  all_goals first
    | exact h.2.symm
    | exact Option.noConfusion h.1

theorem good_batchGo {claims : List (Int × String × Int)} {blk : Int}
    {s s' : EngineState} (hg : Good s)
    (h : batchGo claims blk s = (none, s')) : Good s' := by
  induction claims generalizing s with
  | nil =>
    simp only [batchGo, Prod.mk.injEq, true_and] at h
    subst h
    exact hg
  | cons cl rest ih =>
    obtain ⟨sid, k, stk⟩ := cl
    simp only [batchGo] at h
    cases hr : opClaimSeat sid k stk blk s with
    | mk e s1 =>
      rw [hr] at h
      cases e with
      | some e' => simp at h
      | none =>
        simp only [Option.isSome_none, Bool.false_eq_true, if_false] at h
        exact ih (good_opClaimSeat hg hr) h

theorem good_batch {claims : List (Int × String × Int)} {blk : Int}
    {s s' : EngineState} (hg : Good s)
    (h : batch_claim_seats claims blk s = (none, s')) : Good s' := by
  simp only [batch_claim_seats] at h
  split_ifs at h with h1
  · exact good_batchGo hg h
  · exact Option.noConfusion (congrArg Prod.fst h)

theorem good_step {s s' : EngineState} (hg : Good s) (h : StepOk s s') :
    Good s' := by
  obtain ⟨op, hop⟩ := h
  cases op <;> simp only [applyOp] at hop
  case transfer => exact good_opTransfer hg hop
  case approve => exact good_opApprove hg hop
  case setTransferFee => exact good_opSetTransferFee hg hop
  case setFeeRecipient => exact good_opSetFeeRecipient hg hop
  case claimSeat => exact good_opClaimSeat hg hop
  case releaseSeat => exact good_opReleaseSeat hg hop
  case mintKok => exact good_opMintKok hg hop
  case transferKok => exact good_opTransferKok hg hop
  case setTableUnlocked => exact good_opSetTableUnlocked hg hop
  case batchClaimSeats => exact good_batch hg hop
  case clearEvents => exact good_opClearEvents hg hop

/-- The seat pool built by `__init__`. -/
def initSeats : List RoundTableSeat :=
  (List.range 150).map
    (fun (i : Nat) => (⟨(i : Int), "", 0, 0, SeatStatus.vacant⟩ : RoundTableSeat))

theorem initBase_seats (g : Int) : (initBase g).seats = initSeats := rfl

theorem sumStakes_initSeats : sumStakes initSeats = 0 := by
  rw [initSeats, sumStakes, List.map_map]
  refine List.sum_eq_zero ?_
  intro x hx
  rw [List.mem_map] at hx
  obtain ⟨i, -, rfl⟩ := hx
  rfl

/-- Constructing the engine succeeds: the `__init__` mint credits the full
initial supply to the governance address. -/
theorem initEngine_eq (g : Int) :
    initEngine g = { initBase g with
      total_supply := KON_INITIAL_SUPPLY
      balances := [(GOVERNANCE_ROUND, KON_INITIAL_SUPPLY)] } := by
  have h1 : normalize_addr GOVERNANCE_ROUND = GOVERNANCE_ROUND := by decide
  have h2 : GOVERNANCE_ROUND ≠ BURN_ADDRESS := by decide
  have h3 : GOVERNANCE_ROUND ≠ zero_addr := by decide
  have h4 : (KON_INITIAL_SUPPLY > 0) = True := by
    simp [KON_INITIAL_SUPPLY, KON_SCALE]
  have h5 : (KON_MAX_SUPPLY < KON_INITIAL_SUPPLY) = False := by
    simp [KON_INITIAL_SUPPLY, KON_MAX_SUPPLY, KON_SCALE]
  simp only [initEngine, opMint, h1]
  rw [if_neg (by simp [h2, h3]), if_neg (by simp [h4]),
    if_neg (by simp [initBase]; norm_num [KON_INITIAL_SUPPLY, KON_MAX_SUPPLY, KON_SCALE])]
  show ({ initBase g with
    total_supply := (initBase g).total_supply + KON_INITIAL_SUPPLY
    balances := aset (initBase g).balances GOVERNANCE_ROUND
      ((alookup (initBase g).balances GOVERNANCE_ROUND).getD 0 + KON_INITIAL_SUPPLY) }
    : EngineState) = _
  have hb : (initBase g).balances = [] := rfl
  have ht : (initBase g).total_supply = 0 := rfl
  rw [hb, ht]
  simp [aset, alookup]

theorem good_init (g : Int) : Good (initEngine g) := by
  rw [initEngine_eq]
  refine ⟨?_, ?_, ?_, ?_, ?_, ?_, ?_, ?_⟩
  · show initSeats.length = 150
    rw [initSeats, List.length_map, List.length_range]
  · intro i hi
    show ((initSeats.getD i defaultSeat).seat_id = (i : Int))
    rw [initSeats, getD_map_range _ _ _ _ hi]
  · show (([] : List (String × Int)).map Prod.fst).Nodup
    simp
  · show sumVals [(GOVERNANCE_ROUND, KON_INITIAL_SUPPLY)] + sumStakes initSeats =
      KON_INITIAL_SUPPLY
    rw [sumStakes_initSeats]
    simp [sumVals]
  · show KON_INITIAL_SUPPLY ≤ KON_MAX_SUPPLY
    norm_num [KON_INITIAL_SUPPLY, KON_MAX_SUPPLY, KON_SCALE]
  · intro st hst
    have hst' : st ∈ initSeats := hst
    rw [initSeats, List.mem_map] at hst'
    obtain ⟨i, -, rfl⟩ := hst'
    simp
  · intro st hst
    have hst' : st ∈ initSeats := hst
    rw [initSeats, List.mem_map] at hst'
    obtain ⟨i, -, rfl⟩ := hst'
    simp
  · intro k sid hlk
    have hlk' : alookup ([] : List (String × Int)) k = some sid := hlk
    simp [alookup] at hlk'

theorem good_of_reachable {s : EngineState} (h : Reachable s) : Good s := by
  obtain ⟨g, hrt⟩ := h
  induction hrt with
  | refl => exact good_init g
  | tail _ hstep ih => exact good_step ih hstep

-- ---------------------------------------------------------------------
-- Allowance facts (claim C8)
-- ---------------------------------------------------------------------

/-- Which allowance entry (if any) a transfer rewrites. -/
theorem opTransfer_allowances {s s' : EngineState} {f t : String} {a : Int}
    {snd : String} (h : opTransfer f t a snd s = (none, s')) :
    s'.allowances = s.allowances ∨
    (s'.allowances = aset s.allowances (normalize_addr f, normalize_addr snd)
        ((alookup s.allowances (normalize_addr f, normalize_addr snd)).getD 0 - a) ∧
      (alookup s.allowances (normalize_addr f, normalize_addr snd)).getD 0 ≥ a) := by
  simp only [opTransfer] at h
  split_ifs at h with h1 h2 h3 h4 h5 h6 h7
  all_goals simp only [Prod.mk.injEq] at h
  all_goals try exact Option.noConfusion h.1
  all_goals obtain ⟨-, rfl⟩ := h
  all_goals first
    | (left; rfl)
    | (right
       push_neg at h4
       refine ⟨rfl, h4 ?_⟩
       assumption)

theorem opClaimSeat_allowances (sid : Int) (k : String) (stk blk : Int)
    (s : EngineState) :
    ((opClaimSeat sid k stk blk s).2).allowances = s.allowances := by
  simp only [opClaimSeat]
  split_ifs <;> rfl

theorem opReleaseSeat_allowances (sid : Int) (c : String) (blk : Int)
    (s : EngineState) :
    ((opReleaseSeat sid c blk s).2).allowances = s.allowances := by
  simp only [opReleaseSeat]
  split_ifs <;> rfl

theorem batchGo_allowances (claims : List (Int × String × Int)) (blk : Int)
    (s : EngineState) :
    ((batchGo claims blk s).2).allowances = s.allowances := by
  induction claims generalizing s with
  | nil => rfl
  | cons cl rest ih =>
    obtain ⟨sid, k, stk⟩ := cl
    simp only [batchGo]
    cases hr : opClaimSeat sid k stk blk s with
    | mk e s1 =>
      have hfr : s1.allowances = s.allowances := by
        have := opClaimSeat_allowances sid k stk blk s
        rw [hr] at this
        exact this
      cases e with
      | some e' => simpa using hfr
      | none =>
        simp only [Option.isSome_none, Bool.false_eq_true, if_false]
        rw [ih s1, hfr]

theorem batch_allowances (claims : List (Int × String × Int)) (blk : Int)
    (s : EngineState) :
    ((batch_claim_seats claims blk s).2).allowances = s.allowances := by
  simp only [batch_claim_seats]
  split_ifs
  · exact batchGo_allowances claims blk s
  · rfl

/-- `approve` characterised: it raises `ZeroAddress` exactly when one of
the two normalized addresses is the zero sentinel, and otherwise
*overwrites* the allowance entry with `amount` — no sign check. -/
theorem opApprove_spec (o sp : String) (a : Int) (s : EngineState) :
    (normalize_addr o = zero_addr ∨ normalize_addr sp = zero_addr →
      opApprove o sp a s = (some KonErr.zeroAddress, s)) ∧
    (normalize_addr o ≠ zero_addr → normalize_addr sp ≠ zero_addr →
      opApprove o sp a s =
        (none, { s with
          allowances := aset s.allowances (normalize_addr o, normalize_addr sp) a })) := by
  constructor
  · intro hz
    simp only [opApprove]
    split_ifs with h1 h2
    · exfalso
      rcases hz with hz | hz
      · exact h1 hz
      · exact h2 hz
    · rfl
    · rfl
  · intro h1 h2
    simp only [opApprove]
    rw [if_neg (not_not_intro h1), if_neg (not_not_intro h2)]

/-- Operation invocations restricted to non-negative `approve` amounts. -/
def ApproveNonneg : KonOp → Prop
  | KonOp.approve _ _ a => 0 ≤ a
  | _ => True

def StepNN (s s' : EngineState) : Prop :=
  ∃ op, applyOp op s = (none, s') ∧ ApproveNonneg op

/-- Reachability through raising-free operations whose `approve` amounts
are all non-negative. -/
def ReachableNN (s : EngineState) : Prop :=
  ∃ g, Relation.ReflTransGen StepNN (initEngine g) s

/-- Every stored allowance entry is non-negative. -/
def AllowNonneg (s : EngineState) : Prop :=
  ∀ p ∈ s.allowances, 0 ≤ p.2

theorem allowNonneg_step {s s' : EngineState} (hA : AllowNonneg s)
    (h : StepNN s s') : AllowNonneg s' := by
  obtain ⟨op, hop, hnn⟩ := h
  have hframe : ∀ (x : Option KonErr × EngineState),
      x = (none, s') → x.2.allowances = s.allowances → AllowNonneg s' := by
    intro x hx he
    intro p hp
    rw [hx] at he
    exact hA p (he ▸ hp)
  cases op with
  | transfer f t a snd =>
    simp only [applyOp] at hop
    rcases opTransfer_allowances hop with heq | ⟨heq, hge⟩
    · intro p hp
      exact hA p (heq ▸ hp)
    · intro p hp
      rw [heq] at hp
      rcases mem_aset hp with rfl | hp'
      · simp only []
        omega
      · exact hA p hp'
  | approve o sp a =>
    simp only [applyOp, opApprove] at hop
    split_ifs at hop with h1 h2
    · simp only [Prod.mk.injEq] at hop
      obtain ⟨-, rfl⟩ := hop
      intro p hp
      rcases mem_aset hp with rfl | hp'
      · exact hnn
      · exact hA p hp'
    · exact Option.noConfusion (congrArg Prod.fst hop)
    · exact Option.noConfusion (congrArg Prod.fst hop)
  | setTransferFee b c =>
    simp only [applyOp, opSetTransferFee] at hop
    split_ifs at hop
    all_goals exact hframe _ hop rfl
  | setFeeRecipient r c =>
    simp only [applyOp, opSetFeeRecipient] at hop
    split_ifs at hop
    all_goals exact hframe _ hop rfl
  | claimSeat sid k stk blk =>
    simp only [applyOp] at hop
    refine hframe _ hop ?_
    rw [hop]
    have := opClaimSeat_allowances sid k stk blk s
    rw [hop] at this
    exact this
  | releaseSeat sid c blk =>
    simp only [applyOp] at hop
    refine hframe _ hop ?_
    rw [hop]
    have := opReleaseSeat_allowances sid c blk s
    rw [hop] at this
    exact this
  | mintKok tid t c =>
    simp only [applyOp, opMintKok] at hop
    split_ifs at hop
    all_goals exact hframe _ hop rfl
  | transferKok tid f t snd =>
    simp only [applyOp, opTransferKok] at hop
    split_ifs at hop
    all_goals exact hframe _ hop rfl
  | setTableUnlocked u c now =>
    simp only [applyOp, opSetTableUnlocked] at hop
    split_ifs at hop
    all_goals exact hframe _ hop rfl
  | batchClaimSeats cl blk =>
    simp only [applyOp] at hop
    refine hframe _ hop ?_
    rw [hop]
    have := batch_allowances cl blk s
    rw [hop] at this
    exact this
  | clearEvents =>
    simp only [applyOp, opClearEvents] at hop
    exact hframe _ hop rfl

theorem allowNonneg_of_reachableNN {s : EngineState} (h : ReachableNN s) :
    AllowNonneg s := by
  obtain ⟨g, hrt⟩ := h
  induction hrt with
  | refl =>
    rw [initEngine_eq]
    intro p hp
    have hp' : p ∈ ([] : List ((String × String) × Int)) := hp
    simp at hp'
  | tail _ hstep ih => exact allowNonneg_step ih hstep

-- ---------------------------------------------------------------------
-- Batch behaviour (claim C5)
-- ---------------------------------------------------------------------

def defaultClaim : Int × String × Int := (0, "", 0)

/-- When every claim in the first `k` positions succeeds and the claim at
position `k` raises, the whole loop returns that error together with the
state in which the first `k` claims are applied. -/
theorem batchGo_prefix_err {claims : List (Int × String × Int)} {blk : Int}
    {s sk s1 : EngineState} {k : Nat} {e : KonErr}
    (hk : k < claims.length)
    (hpre : batchGo (claims.take k) blk s = (none, sk))
    (herr : opClaimSeat (claims.getD k defaultClaim).1
      (claims.getD k defaultClaim).2.1 (claims.getD k defaultClaim).2.2 blk sk =
      (some e, s1)) :
    batchGo claims blk s = (some e, sk) := by
  induction claims generalizing s k with
  | nil => simp at hk
  | cons cl rest ih =>
    obtain ⟨sid, kn, stk⟩ := cl
    cases k with
    | zero =>
      simp only [List.take_zero, batchGo, Prod.mk.injEq, true_and] at hpre
      subst hpre
      simp only [List.getD_cons_zero] at herr
      have hfr := opClaimSeat_err_frame herr
      subst hfr
      simp only [batchGo, herr, Option.isSome_some, if_true]
    | succ m =>
      simp only [List.take_succ_cons, batchGo] at hpre
      simp only [List.getD_cons_succ] at herr
      simp only [batchGo]
      cases hr : opClaimSeat sid kn stk blk s with
      | mk e2 s2 =>
        rw [hr] at hpre
        cases e2 with
        | some e3 => simp at hpre
        | none =>
          simp only [Option.isSome_none, Bool.false_eq_true, if_false] at hpre ⊢
          exact ih (by simpa using hk) hpre herr

-- ---------------------------------------------------------------------
-- Transfer characterisation (claim C2)
-- ---------------------------------------------------------------------

theorem alookup_aset_ite {α β : Type} [DecidableEq α] (l : List (α × β))
    (k k' : α) (v : β) :
    alookup (aset l k v) k' = if k' = k then some v else alookup l k' := by
  by_cases h : k' = k
  · subst h
    simp [alookup_aset_self]
  · simp [h, alookup_aset_ne _ _ _ _ h]

/-- The fee `transfer` computes for amount `a` in state `s`
(lines 434-438). -/
def transferFeeOf (s : EngineState) (a : Int) : Int :=
  if s.transfer_fee_basis > 0 ∧ s.fee_recipient ≠ zero_addr then
    Int.fdiv (a * s.transfer_fee_basis) KON_BASIS_POINTS
  else 0

/-- A successful `transfer(from, to, amount, sender)` between three pairwise
distinct ledger entries: the sender loses the gross `amount`, the receiver
gains `amount - fee`, the fee recipient gains `fee`
(`fee = amount * basis // 10000`, possibly `0`), and the logged event
records the net amount. -/
theorem opTransfer_spec {s s' : EngineState} {f t : String} {a : Int}
    {snd : String} (h : opTransfer f t a snd s = (none, s'))
    (hft : normalize_addr f ≠ normalize_addr t)
    (hfr_f : s.fee_recipient ≠ normalize_addr f)
    (hfr_t : s.fee_recipient ≠ normalize_addr t) :
    0 < a ∧
    balance_of s' f = balance_of s f - a ∧
    balance_of s' t = balance_of s t +
      (a - transferFeeOf s a) ∧
    (alookup s'.balances s.fee_recipient).getD 0 =
      (alookup s.balances s.fee_recipient).getD 0 + transferFeeOf s a ∧
    s'.events = s.events ++
      [KonEvent.transferEv (normalize_addr f) (normalize_addr t)
        (a - transferFeeOf s a)] := by
  have htf : normalize_addr t ≠ normalize_addr f := Ne.symm hft
  have hffr : normalize_addr f ≠ s.fee_recipient := Ne.symm hfr_f
  have htfr : normalize_addr t ≠ s.fee_recipient := Ne.symm hfr_t
  simp only [opTransfer] at h
  split_ifs at h with h1 h2 h3 h4 h5 h6
  all_goals simp only [Prod.mk.injEq] at h
  all_goals try exact Option.noConfusion h.1
  all_goals obtain ⟨-, rfl⟩ := h
  all_goals refine ⟨by omega, ?_, ?_, ?_, ?_⟩
  all_goals simp only [balance_of, transferFeeOf, alookup_aset_ite, hft, htf,
    hffr, htfr, hfr_f, hfr_t, if_true, if_false]
  all_goals try simp only [h5.1, h5.2, ne_eq, not_false_eq_true, and_self,
    and_true, true_and, if_true]
  all_goals try simp only [h5, if_false]
  all_goals try have hf : 0 ≤ (a * s.transfer_fee_basis).fdiv KON_BASIS_POINTS :=
    Int.fdiv_nonneg (mul_nonneg (by omega) (by omega)) (by norm_num [KON_BASIS_POINTS])
  all_goals try simp only [Option.getD_some]
  all_goals try simp [h5.1, h5.2]
  all_goals try simp [h5]
  all_goals try omega

-- ---------------------------------------------------------------------
-- Claim/release round trip (claim C6)
-- ---------------------------------------------------------------------

/-- C6: after a successful `claim_seat`, an immediate `release_seat` by
the same knight succeeds, restores the knight's balance exactly, resets
the seat to a cleared VACANT record, and removes the reverse-index entry.
`hlen` and `hnodup` record that the Python engine's seat dict always holds
all 150 seats and its reverse-index dict has no duplicate keys. -/
theorem claim_release_round_trip {s s1 : EngineState} {sid : Int}
    {k : String} {stk blk blk2 : Int}
    (hlen : s.seats.length = 150)
    (hnodup : (s.seat_by_knight.map Prod.fst).Nodup)
    (hc : opClaimSeat sid k stk blk s = (none, s1)) :
    ∃ s2, opReleaseSeat sid k blk2 s1 = (none, s2) ∧
      balance_of s2 k = balance_of s k ∧
      s2.seats.getD sid.toNat defaultSeat =
        ⟨sid, "", 0, 0, SeatStatus.vacant⟩ ∧
      alookup s2.seat_by_knight (normalize_addr k) = none := by
  simp only [opClaimSeat] at hc
  split_ifs at hc with h1 h2 h3 h4 h5
  all_goals simp only [Prod.mk.injEq] at hc
  all_goals try exact Option.noConfusion hc.1
  obtain ⟨-, rfl⟩ := hc
  have h1' : 0 ≤ sid ∧ sid < 150 := by simpa [ROUND_TABLE_SEATS] using h1
  have hlt : sid.toNat < s.seats.length := by omega
  simp only [opReleaseSeat]
  rw [if_neg (not_not_intro h1)]
  rw [getD_set_self _ _ _ _ hlt]
  rw [if_neg (not_not_intro rfl), if_neg (not_not_intro rfl)]
  rw [alookup_aset_self]
  rw [if_neg (by simp)]
  refine ⟨_, rfl, ?_, ?_, ?_⟩
  · simp only [balance_of, alookup_aset_self, Option.getD_some]
    omega
  · rw [getD_set_self]
    rw [List.length_set]
    exact hlt
  · exact alookup_aerase_self _ _ (aset_nodup _ _ _ hnodup)

-- ---------------------------------------------------------------------
-- Character lemmas for `_normalize_addr` (claim C7)
-- ---------------------------------------------------------------------

theorem char_ofNatAux_toNat (n : Nat) (hv : Nat.isValidChar n) :
    (Char.ofNatAux n hv).toNat = n := by
  simp [Char.ofNatAux, Char.toNat, UInt32.toNat, BitVec.toNat_ofNatLt]

theorem toLower_eq_of_not_upper {c : Char}
    (h : ¬(65 ≤ c.toNat ∧ c.toNat ≤ 90)) : Char.toLower c = c := by
  simp only [Char.toLower]
  rw [if_neg]
  intro hc
  exact h ⟨hc.1, hc.2⟩

theorem toLower_toNat_of_upper {c : Char}
    (h : 65 ≤ c.toNat ∧ c.toNat ≤ 90) :
    (Char.toLower c).toNat = c.toNat + 32 := by
  simp only [Char.toLower]
  rw [if_pos ⟨h.1, h.2⟩]
  rw [Char.ofNat, dif_pos (Or.inl (by omega))]
  exact char_ofNatAux_toNat _ _

theorem toLower_toNat_or (c : Char) :
    (Char.toLower c).toNat = c.toNat ∨ (Char.toLower c).toNat = c.toNat + 32 := by
  by_cases h : 65 ≤ c.toNat ∧ c.toNat ≤ 90
  · exact Or.inr (toLower_toNat_of_upper h)
  · exact Or.inl (by rw [toLower_eq_of_not_upper h])

theorem toLower_idem (c : Char) :
    Char.toLower (Char.toLower c) = Char.toLower c := by
  by_cases h : 65 ≤ c.toNat ∧ c.toNat ≤ 90
  · refine toLower_eq_of_not_upper ?_
    rw [toLower_toNat_of_upper h]
    omega
  · simp only [toLower_eq_of_not_upper h]

theorem pyIsSpace_toNat_le {c : Char} (h : pyIsSpace c = true) :
    c.toNat ≤ 32 := by
  simp only [pyIsSpace, Bool.or_eq_true, decide_eq_true_eq] at h
  rcases h with (((((h | h) | h) | h) | h) | h) <;> subst h <;> decide

theorem pyIsSpace_toLower {c : Char} (h : pyIsSpace c = false) :
    pyIsSpace (Char.toLower c) = false := by
  by_cases hu : 65 ≤ c.toNat ∧ c.toNat ≤ 90
  · have ht := toLower_toNat_of_upper hu
    by_contra hs
    have hs' : pyIsSpace (Char.toLower c) = true := by
      cases hq : pyIsSpace (Char.toLower c)
      · exact absurd hq hs
      · rfl
    have := pyIsSpace_toNat_le hs'
    omega
  · rw [toLower_eq_of_not_upper hu]
    exact h

-- ---------------------------------------------------------------------
-- `pyStrip` boundary lemmas
-- ---------------------------------------------------------------------

theorem dropWhile_head_false (p : Char → Bool) (l : List Char) (c : Char)
    (h : (l.dropWhile p).head? = some c) : p c = false := by
  induction l with
  | nil => simp [List.dropWhile] at h
  | cons a rest ih =>
    rw [List.dropWhile_cons] at h
    split_ifs at h with hp
    · exact ih h
    · simp at h
      subst h
      simpa using hp

theorem suffix_getLast? {l1 l2 : List Char} (h : l1.IsSuffix l2)
    (hne : l1 ≠ []) : l1.getLast? = l2.getLast? := by
  obtain ⟨pre, rfl⟩ := h
  rw [List.getLast?_append]
  cases hl : l1.getLast? with
  | none => exact absurd (List.getLast?_eq_none_iff.mp hl) hne
  | some x => rfl

theorem pyStrip_getLast?_false {l : List Char} {c : Char}
    (h : (pyStrip l).getLast? = some c) : pyIsSpace c = false := by
  rw [pyStrip, List.getLast?_reverse] at h
  exact dropWhile_head_false _ _ _ h

theorem pyStrip_head?_false {l : List Char} {c : Char}
    (h : (pyStrip l).head? = some c) : pyIsSpace c = false := by
  rw [pyStrip, List.head?_reverse] at h
  have hsuf := List.dropWhile_suffix (l := (l.dropWhile pyIsSpace).reverse)
    (p := pyIsSpace)
  have hne : ((l.dropWhile pyIsSpace).reverse.dropWhile pyIsSpace) ≠ [] := by
    intro hnil
    rw [hnil] at h
    simp at h
  rw [suffix_getLast? hsuf hne, List.getLast?_reverse] at h
  exact dropWhile_head_false _ _ _ h

theorem pyStrip_eq_self {l : List Char}
    (hh : ∀ c, l.head? = some c → pyIsSpace c = false)
    (hl : ∀ c, l.getLast? = some c → pyIsSpace c = false) :
    pyStrip l = l := by
  have h1 : l.dropWhile pyIsSpace = l := by
    cases l with
    | nil => rfl
    | cons a rest =>
      rw [List.dropWhile_cons, if_neg]
      simp [hh a rfl]
  rw [pyStrip, h1]
  have h2 : l.reverse.dropWhile pyIsSpace = l.reverse := by
    cases hrev : l.reverse with
    | nil => rfl
    | cons a rest =>
      have ha : l.getLast? = some a := by
        rw [← List.head?_reverse, hrev]
        rfl
      rw [List.dropWhile_cons, if_neg]
      simp [hl a ha]
  rw [h2, List.reverse_reverse]

-- ---------------------------------------------------------------------
-- `pyZfill` / `lastN` lemmas
-- ---------------------------------------------------------------------

theorem pyZfill_length (l : List Char) (w : Nat) :
    (pyZfill l w).length = max l.length w := by
  rw [pyZfill.eq_def]
  split_ifs with h
  · omega
  · split
    · simp
    · rename_i c rest
      split_ifs with hc
      · simp at h ⊢
        omega
      · simp at h ⊢
        omega

theorem mem_pyZfill {l : List Char} {w : Nat} {c : Char}
    (h : c ∈ pyZfill l w) : c = '0' ∨ c ∈ l := by
  rw [pyZfill.eq_def] at h
  split_ifs at h with h1
  · exact Or.inr h
  · split at h
    · rw [List.mem_replicate] at h
      exact Or.inl h.2
    · rename_i a rest
      split_ifs at h with hc
      · rcases List.mem_cons.mp h with rfl | h
        · exact Or.inr (List.mem_cons_self _ _)
        · rcases List.mem_append.mp h with h | h
          · exact Or.inl (List.mem_replicate.mp h).2
          · exact Or.inr (List.mem_cons_of_mem _ h)
      · rcases List.mem_append.mp h with h | h
        · exact Or.inl (List.mem_replicate.mp h).2
        · exact Or.inr h

theorem getLast?_isSome_of_ne_nil {l : List Char} (h : l ≠ []) :
    ∃ x, l.getLast? = some x := by
  cases hl : l.getLast? with
  | none => exact absurd (List.getLast?_eq_none_iff.mp hl) h
  | some x => exact ⟨x, rfl⟩

theorem getLast?_cons_append (a : Char) (mid rest : List Char) :
    (a :: (mid ++ rest)).getLast? =
      if rest = [] then (a :: mid).getLast? else rest.getLast? := by
  split_ifs with h
  · subst h
    rw [List.append_nil]
  · rw [show a :: (mid ++ rest) = (a :: mid) ++ rest by simp, List.getLast?_append]
    obtain ⟨x, hx⟩ := getLast?_isSome_of_ne_nil h
    rw [hx]
    rfl

theorem getLast?_cons_replicate (a : Char) (k : Nat) :
    (a :: List.replicate k '0').getLast? = if k = 0 then some a else some '0' := by
  split_ifs with h
  · subst h
    rfl
  · obtain ⟨m, rfl⟩ := Nat.exists_eq_succ_of_ne_zero h
    rw [List.replicate_succ', ← List.cons_append, List.getLast?_concat]

theorem getLast?_pyZfill (l : List Char) (w : Nat) (hw : 0 < w) :
    (pyZfill l w).getLast? = some '0' ∨
    (pyZfill l w).getLast? = l.getLast? := by
  rw [pyZfill.eq_def]
  split_ifs with h1
  · exact Or.inr rfl
  · split
    · left
      cases w with
      | zero => omega
      | succ m =>
        rw [List.replicate_succ', List.getLast?_concat]
    · rename_i a rest
      split_ifs with hc
      · cases rest with
        | nil =>
          left
          rw [getLast?_cons_append, if_pos rfl, getLast?_cons_replicate, if_neg]
          simp only [List.length_cons, List.length_nil] at h1 ⊢
          omega
        | cons b rest2 =>
          right
          rw [getLast?_cons_append, if_neg (by simp)]
          rw [show a :: b :: rest2 = a :: ([] ++ b :: rest2) by simp,
            getLast?_cons_append, if_neg (by simp)]
      · right
        rw [List.getLast?_append]
        obtain ⟨x, hx⟩ := getLast?_isSome_of_ne_nil
          (l := a :: rest) (by simp)
        rw [hx]
        rfl

theorem lastN_getLast? {l : List Char} {n : Nat} (hn : 0 < n)
    (hl : n ≤ l.length) : (lastN l n).getLast? = l.getLast? := by
  rw [lastN, List.getLast?_drop, if_neg (by omega)]

-- ---------------------------------------------------------------------
-- Normal form of `_normalize_addr` output
-- ---------------------------------------------------------------------

theorem normalize_chars_shape (l : List Char) :
    ∃ t, normalize_addr_chars l = '0' :: 'x' :: t ∧ t.length = 40 ∧
      (∀ c ∈ t, Char.toLower c = c) ∧
      (∀ c, t.getLast? = some c → pyIsSpace c = false) := by
  simp only [normalize_addr_chars]
  set a := pyStrip l with ha
  set b := if a.take 2 = ['0', 'x'] then a.drop 2 else a with hb
  have hbLast : ∀ c, b.getLast? = some c → pyIsSpace c = false := by
    intro c hc
    rw [hb] at hc
    split_ifs at hc with h2
    · rw [List.getLast?_drop] at hc
      split_ifs at hc with h3
      exact pyStrip_getLast?_false (ha ▸ hc)
    · exact pyStrip_getLast?_false (ha ▸ hc)
  have hzlen : (pyZfill (pyLower b) 40).length = max (pyLower b).length 40 :=
    pyZfill_length _ _
  refine ⟨lastN (pyZfill (pyLower b) 40) 40, rfl, ?_, ?_, ?_⟩
  · rw [lastN, List.length_drop]
    omega
  · intro c hc
    have hc' : c ∈ pyZfill (pyLower b) 40 := by
      rw [lastN] at hc
      exact List.mem_of_mem_drop hc
    rcases mem_pyZfill hc' with rfl | hc''
    · decide
    · rw [pyLower, List.mem_map] at hc''
      obtain ⟨c0, -, rfl⟩ := hc''
      exact toLower_idem c0
  · intro c hc
    rw [lastN_getLast? (by omega) (by omega)] at hc
    rcases getLast?_pyZfill (pyLower b) 40 (by omega) with h | h
    · rw [h] at hc
      simp at hc
      subst hc
      decide
    · rw [h] at hc
      rw [pyLower, List.getLast?_map] at hc
      cases hbl : b.getLast? with
      | none => rw [hbl] at hc; exact Option.noConfusion hc
      | some c0 =>
        rw [hbl] at hc
        simp at hc
        subst hc
        exact pyIsSpace_toLower (hbLast c0 hbl)

theorem normalize_chars_fixed {t : List Char} (hlen : t.length = 40)
    (hlow : ∀ c ∈ t, Char.toLower c = c)
    (hlast : ∀ c, t.getLast? = some c → pyIsSpace c = false) :
    normalize_addr_chars ('0' :: 'x' :: t) = '0' :: 'x' :: t := by
  have hne : t ≠ [] := by
    intro h
    rw [h] at hlen
    simp at hlen
  have hstrip : pyStrip ('0' :: 'x' :: t) = '0' :: 'x' :: t := by
    refine pyStrip_eq_self ?_ ?_
    · intro c hc
      simp at hc
      subst hc
      decide
    · intro c hc
      rw [show ('0' :: 'x' :: t) = ['0', 'x'] ++ t by simp,
        List.getLast?_append] at hc
      obtain ⟨x, hx⟩ := getLast?_isSome_of_ne_nil hne
      rw [hx] at hc
      simp at hc
      exact hlast c (by rw [hx, hc])
  simp only [normalize_addr_chars, hstrip]
  rw [if_pos (by simp)]
  simp only [List.drop_succ_cons, List.drop_zero]
  have hmap : pyLower t = t := by
    rw [pyLower]
    calc List.map Char.toLower t = List.map id t := List.map_congr_left hlow
    _ = t := List.map_id t
  rw [hmap]
  have hz : pyZfill t 40 = t := by
    rw [pyZfill.eq_def, if_pos (by omega)]
  rw [hz]
  rw [lastN, hlen]
  simp

theorem normalize_addr_chars_idem (l : List Char) :
    normalize_addr_chars (normalize_addr_chars l) = normalize_addr_chars l := by
  obtain ⟨t, ht, hlen, hlow, hlast⟩ := normalize_chars_shape l
  rw [ht, normalize_chars_fixed hlen hlow hlast]

/-- `_normalize_addr` is idempotent. -/
theorem normalize_addr_idem (s : String) :
    normalize_addr (normalize_addr s) = normalize_addr s := by
  simp only [normalize_addr]
  exact congrArg String.mk (normalize_addr_chars_idem s.data)

/-- Every ledger lookup resolves a raw address and its normalized form to
the same entry. -/
theorem balance_of_normalize (st : EngineState) (a : String) :
    balance_of st (normalize_addr a) = balance_of st a := by
  simp only [balance_of, normalize_addr_idem]

-- ---------------------------------------------------------------------
-- Hex-string normalization lemmas (claim C7)
-- ---------------------------------------------------------------------

/-- ASCII hex digits `0-9 a-f A-F`. -/
def isHexDigit (c : Char) : Bool :=
  (decide (48 ≤ c.toNat) && decide (c.toNat ≤ 57)) ||
  (decide (97 ≤ c.toNat) && decide (c.toNat ≤ 102)) ||
  (decide (65 ≤ c.toNat) && decide (c.toNat ≤ 70))

theorem isHexDigit_bounds {c : Char} (h : isHexDigit c = true) :
    48 ≤ c.toNat ∧ c.toNat ≤ 102 := by
  simp [isHexDigit] at h
  omega

theorem isHexDigit_not_space {c : Char} (h : isHexDigit c = true) :
    pyIsSpace c = false := by
  have hb := isHexDigit_bounds h
  by_contra hs
  have hs' : pyIsSpace c = true := by
    cases hq : pyIsSpace c
    · exact absurd hq hs
    · rfl
  have := pyIsSpace_toNat_le hs'
  omega

theorem hex_pyStrip {l : List Char} (hhex : ∀ c ∈ l, isHexDigit c = true) :
    pyStrip l = l := by
  refine pyStrip_eq_self ?_ ?_
  · intro c hc
    exact isHexDigit_not_space (hhex c (List.mem_of_mem_head? hc))
  · intro c hc
    have : c ∈ l := by
      have hne : l ≠ [] := by
        intro h
        rw [h] at hc
        exact Option.noConfusion hc
      rw [List.getLast?_eq_getLast _ hne] at hc
      simp at hc
      rw [← hc]
      exact List.getLast_mem hne
    exact isHexDigit_not_space (hhex c this)

theorem hex_not_0x_headed {l : List Char} (hhex : ∀ c ∈ l, isHexDigit c = true) :
    ¬(l.take 2 = ['0', 'x']) := by
  intro h
  have hx : 'x' ∈ l.take 2 := by
    rw [h]
    simp
  have := hhex 'x' (List.mem_of_mem_take hx)
  simp [isHexDigit] at this

/-- On a string of bare hex digits, `_normalize_addr` depends only on the
lowercased digits. -/
theorem normalize_hex (l : List Char)
    (hhex : ∀ c ∈ l, isHexDigit c = true) :
    normalize_addr_chars l =
      '0' :: 'x' :: lastN (pyZfill (pyLower l) 40) 40 := by
  simp only [normalize_addr_chars, hex_pyStrip hhex]
  rw [if_neg (hex_not_0x_headed hhex)]

/-- On a `0x`-prefixed string of hex digits the prefix is stripped, giving
the same result as the bare digits. -/
theorem normalize_hex_prefixed (l : List Char)
    (hhex : ∀ c ∈ l, isHexDigit c = true) :
    normalize_addr_chars ('0' :: 'x' :: l) =
      '0' :: 'x' :: lastN (pyZfill (pyLower l) 40) 40 := by
  have hstrip : pyStrip ('0' :: 'x' :: l) = '0' :: 'x' :: l := by
    refine pyStrip_eq_self ?_ ?_
    · intro c hc
      simp at hc
      subst hc
      decide
    · intro c hc
      rw [show ('0' :: 'x' :: l) = ['0', 'x'] ++ l by simp,
        List.getLast?_append] at hc
      cases hl : l.getLast? with
      | none =>
        rw [hl] at hc
        simp at hc
        subst hc
        decide
      | some x =>
        rw [hl] at hc
        simp at hc
        subst hc
        have hxl : x ∈ l := by
          have hne : l ≠ [] := by
            intro h
            rw [h] at hl
            exact Option.noConfusion hl
          rw [List.getLast?_eq_getLast _ hne] at hl
          simp at hl
          rw [← hl]
          exact List.getLast_mem hne
        exact isHexDigit_not_space (hhex x hxl)
  simp only [normalize_addr_chars, hstrip]
  rw [if_pos (by simp)]
  simp only [List.drop_succ_cons, List.drop_zero]

theorem pyZfill_of_le {l : List Char} {w : Nat} (h : w ≤ l.length) :
    pyZfill l w = l := by
  rw [pyZfill.eq_def, if_pos h]

theorem pyZfill_nil {w : Nat} : pyZfill [] w = List.replicate w '0' := by
  by_cases h : w ≤ ([] : List Char).length
  · rw [pyZfill_of_le h]
    simp at h
    rw [h]
    rfl
  · rw [pyZfill.eq_def, if_neg h]

theorem pyZfill_cons_nonsign {c : Char} {rest : List Char} {w : Nat}
    (hlen : ¬ w ≤ (c :: rest).length) (hp : c ≠ '+') (hm : c ≠ '-') :
    pyZfill (c :: rest) w =
      List.replicate (w - (c :: rest).length) '0' ++ (c :: rest) := by
  rw [pyZfill.eq_def, if_neg hlen]
  show (if (decide (c = '+') || decide (c = '-')) = true
    then c :: (List.replicate (w - (c :: rest).length) '0' ++ rest)
    else List.replicate (w - (c :: rest).length) '0' ++ (c :: rest)) = _
  rw [if_neg (by simp [hp, hm])]

/-- Prepending a single `'0'` to a sign-free string does not change the
`zfill(40)[-40:]` slice: the zero is either absorbed into the padding or
cut off by the slice. -/
theorem lastN_pyZfill_cons_zero (m : List Char)
    (hsign : ∀ c, m.head? = some c → (c ≠ '+' ∧ c ≠ '-')) :
    lastN (pyZfill ('0' :: m) 40) 40 = lastN (pyZfill m 40) 40 := by
  by_cases hm40 : 40 ≤ m.length
  · rw [pyZfill_of_le (by simp; omega), pyZfill_of_le hm40, lastN, lastN]
    simp only [List.length_cons]
    rw [show m.length + 1 - 40 = (m.length - 40) + 1 by omega,
      List.drop_succ_cons]
  · cases m with
    | nil =>
      rw [pyZfill_nil]
      rw [pyZfill_cons_nonsign (by simp) (by decide) (by decide)]
      have h39 : (40 : Nat) - ([('0' : Char)] : List Char).length = 39 := by
        simp
      rw [show ((40 : Nat) - (('0' : Char) :: ([] : List Char)).length) = 39
        by simp]
      rw [show (List.replicate 39 '0' ++ ['0'] : List Char) =
        List.replicate 40 '0' from (List.replicate_succ' 39 '0').symm]
    | cons c rest =>
      have hs := hsign c rfl
      by_cases hm39 : 40 ≤ ('0' :: c :: rest).length
      · rw [pyZfill_of_le hm39,
          pyZfill_cons_nonsign (by simpa using hm40) hs.1 hs.2]
        simp only [List.length_cons] at hm39 hm40 ⊢
        rw [show 40 - (rest.length + 1) = 1 by omega]
        rfl
      · rw [pyZfill_cons_nonsign hm39 (by decide) (by decide),
          pyZfill_cons_nonsign (by simpa using hm40) hs.1 hs.2]
        simp only [List.length_cons] at hm39 hm40 ⊢
        rw [show 40 - (rest.length + 1 + 1) = 39 - (rest.length + 1) by omega,
          show 40 - (rest.length + 1) = (39 - (rest.length + 1)) + 1 by omega,
          List.replicate_succ', List.append_assoc, List.singleton_append]

theorem toLower_hex_not_sign {c : Char} (h : isHexDigit c = true) :
    Char.toLower c ≠ '+' ∧ Char.toLower c ≠ '-' := by
  have hb := isHexDigit_bounds h
  have h43 : ('+' : Char).toNat = 43 := by decide
  have h45 : ('-' : Char).toNat = 45 := by decide
  rcases toLower_toNat_or c with ht | ht <;>
    exact ⟨fun he => by rw [he] at ht; omega, fun he => by rw [he] at ht; omega⟩

/-- Left-padding a hex-digit string with `'0'` does not change its
normalized address. -/
theorem normalize_hex_pad (l : List Char)
    (hhex : ∀ c ∈ l, isHexDigit c = true) :
    normalize_addr_chars ('0' :: l) = normalize_addr_chars l := by
  have hhex0 : ∀ c ∈ ('0' :: l), isHexDigit c = true := by
    intro c hc
    rcases List.mem_cons.mp hc with rfl | hc
    · decide
    · exact hhex c hc
  rw [normalize_hex _ hhex0, normalize_hex _ hhex]
  have hmap : pyLower ('0' :: l) = '0' :: pyLower l := by
    rw [pyLower, List.map_cons, show Char.toLower '0' = '0' by decide]
    rfl
  rw [hmap, lastN_pyZfill_cons_zero]
  intro c hc
  rw [pyLower, List.head?_map] at hc
  cases hl : l.head? with
  | none =>
    rw [hl] at hc
    exact Option.noConfusion hc
  | some c0 =>
    rw [hl] at hc
    simp at hc
    subst hc
    exact toLower_hex_not_sign (hhex c0 (List.mem_of_mem_head? hl))

theorem alookup_mem {α β : Type} [DecidableEq α] {l : List (α × β)} {k : α}
    {v : β} (h : alookup l k = some v) : (k, v) ∈ l := by
  induction l with
  | nil => simp [alookup] at h
  | cons p rest ih =>
    obtain ⟨pk, pv⟩ := p
    by_cases hp : pk = k
    · subst hp
      rw [alookup, if_pos rfl] at h
      simp at h
      subst h
      simp
    · rw [alookup, if_neg hp] at h
      exact List.mem_cons_of_mem _ (ih h)

-- ---------------------------------------------------------------------
-- Concrete execution traces used by the counterexamples
-- ---------------------------------------------------------------------

/-- Governance unlocks the table on a fresh engine. -/
def sUnlocked : EngineState :=
  (opSetTableUnlocked true GOVERNANCE_ROUND 7 (initEngine 0)).2

/-- ... then claims seat 0 with the minimum stake. -/
def sClaim0 : EngineState :=
  (opClaimSeat 0 GOVERNANCE_ROUND KON_MIN_STAKE_FOR_SEAT 3 sUnlocked).2

/-- ... then claims seat 1 as well, silently overwriting its own
reverse-index entry. -/
def sClaim01 : EngineState :=
  (opClaimSeat 1 GOVERNANCE_ROUND KON_MIN_STAKE_FOR_SEAT 3 sClaim0).2

/-- ... then releases seat 0, which deletes the reverse-index entry that
pointed at seat 1. -/
def sRel0 : EngineState :=
  (opReleaseSeat 0 GOVERNANCE_ROUND 9 sClaim01).2

/-- ... then a successful `approve` (a fungible operation). -/
def sApprove : EngineState :=
  (opApprove GOVERNANCE_ROUND SEAT_REGISTRAR 5 sClaim0).2

theorem reachable_sUnlocked : Reachable sUnlocked :=
  ⟨0, Relation.ReflTransGen.tail Relation.ReflTransGen.refl
    ⟨KonOp.setTableUnlocked true GOVERNANCE_ROUND 7, by decide⟩⟩

theorem reachable_sClaim0 : Reachable sClaim0 := by
  obtain ⟨g0, h⟩ := reachable_sUnlocked
  exact ⟨g0, Relation.ReflTransGen.tail h
    ⟨KonOp.claimSeat 0 GOVERNANCE_ROUND KON_MIN_STAKE_FOR_SEAT 3, by decide⟩⟩

theorem reachable_sClaim01 : Reachable sClaim01 := by
  obtain ⟨g0, h⟩ := reachable_sClaim0
  exact ⟨g0, Relation.ReflTransGen.tail h
    ⟨KonOp.claimSeat 1 GOVERNANCE_ROUND KON_MIN_STAKE_FOR_SEAT 3, by decide⟩⟩

theorem reachable_sRel0 : Reachable sRel0 := by
  obtain ⟨g0, h⟩ := reachable_sClaim01
  exact ⟨g0, Relation.ReflTransGen.tail h
    ⟨KonOp.releaseSeat 0 GOVERNANCE_ROUND 9, by decide⟩⟩

theorem reachable_sApprove : Reachable sApprove := by
  obtain ⟨g0, h⟩ := reachable_sClaim0
  exact ⟨g0, Relation.ReflTransGen.tail h
    ⟨KonOp.approve GOVERNANCE_ROUND SEAT_REGISTRAR 5, by decide⟩⟩

-- ---------------------------------------------------------------------
-- Claim theorems
-- ---------------------------------------------------------------------

/-- C1 (counterexample): the claim as stated is false. `sApprove` is a
reachable state whose latest operation is a *successful fungible operation*
(`approve`), yet the sum of the balance map is not `total_supply`: the
10000-token seat stake was debited from the balance map and is held in the
seat record instead. -/
theorem c1_sum_balances_counterexample :
    Reachable sApprove ∧ StepOk sClaim0 sApprove ∧
    sumVals sApprove.balances ≠ sApprove.total_supply :=
  ⟨reachable_sApprove,
    ⟨KonOp.approve GOVERNANCE_ROUND SEAT_REGISTRAR 5, by decide⟩,
    by decide⟩

/-- C1 (amended): in every state reachable through raising-free public
operations, the sum of the balance map *plus the stake escrowed in seat
records* equals `total_supply`, and `total_supply ≤ KON_MAX_SUPPLY`. -/
theorem c1_conservation_and_cap (s : EngineState) (h : Reachable s) :
    sumVals s.balances + sumStakes s.seats = s.total_supply ∧
    s.total_supply ≤ KON_MAX_SUPPLY :=
  ⟨(good_of_reachable h).conservation, (good_of_reachable h).cap⟩

theorem c1_conservation_and_cap_witness :
    sumVals (initEngine 0).balances + sumStakes (initEngine 0).seats =
      (initEngine 0).total_supply ∧
    (initEngine 0).total_supply ≤ KON_MAX_SUPPLY :=
  c1_conservation_and_cap (initEngine 0) ⟨0, Relation.ReflTransGen.refl⟩

/-- C3 (counterexample): after an address claims a second seat while still
occupying the first, seat 0 is CLAIMED with a non-empty occupant but the
reverse index maps that occupant to seat 1, so the biconditional between
a non-empty occupant and a reverse-index entry for that seat fails for
seat 0. -/
theorem c3_double_claim_counterexample :
    Reachable sClaim01 ∧
    (sClaim01.seats.getD 0 defaultSeat).status = SeatStatus.claimed ∧
    (sClaim01.seats.getD 0 defaultSeat).occupant ≠ "" ∧
    alookup sClaim01.seat_by_knight
      (sClaim01.seats.getD 0 defaultSeat).occupant = some 1 ∧
    ¬(alookup sClaim01.seat_by_knight
      (sClaim01.seats.getD 0 defaultSeat).occupant = some 0) :=
  ⟨reachable_sClaim01, by decide, by decide, by decide, by decide⟩

/-- C3 (amended): in every reachable state, a seat is CLAIMED exactly when
its occupant is non-empty, and every reverse-index entry points at a seat
that is CLAIMED by exactly that knight (the converse — that every claimed
seat has a reverse-index entry — fails under double claims). -/
theorem c3_seat_invariants (s : EngineState) (h : Reachable s) :
    (∀ st ∈ s.seats, st.status = SeatStatus.claimed ↔ st.occupant ≠ "") ∧
    (∀ k sid, alookup s.seat_by_knight k = some sid →
      (s.seats.getD sid.toNat defaultSeat).occupant = k ∧
      (s.seats.getD sid.toNat defaultSeat).status = SeatStatus.claimed ∧
      (s.seats.getD sid.toNat defaultSeat).seat_id = sid) := by
  have hg := good_of_reachable h
  refine ⟨hg.status_occ, ?_⟩
  intro k sid hlk
  obtain ⟨h0, h150, hocc, hst⟩ := hg.idx_sound k sid hlk
  refine ⟨hocc, hst, ?_⟩
  rw [hg.seat_ids sid.toNat h150]
  omega

theorem c3_seat_invariants_witness :
    (∀ st ∈ (initEngine 0).seats,
      st.status = SeatStatus.claimed ↔ st.occupant ≠ "") ∧
    (∀ k sid, alookup (initEngine 0).seat_by_knight k = some sid →
      ((initEngine 0).seats.getD sid.toNat defaultSeat).occupant = k ∧
      ((initEngine 0).seats.getD sid.toNat defaultSeat).status =
        SeatStatus.claimed ∧
      ((initEngine 0).seats.getD sid.toNat defaultSeat).seat_id = sid) :=
  c3_seat_invariants (initEngine 0) ⟨0, Relation.ReflTransGen.refl⟩

/-- C4 (code bug): `release_seat` is *not* check-then-mutate.  In the
reachable state `sRel0` (one knight claimed seats 0 and 1, then released
seat 0, which deleted the single reverse-index entry), releasing seat 1
resets the seat record, then raises `KeyError` from
`del self._seat_by_knight[caller]`, and never refunds the stake: the
operation raises yet leaves the state changed. -/
theorem c4_release_seat_keyerror :
    Reachable sRel0 ∧
    (opReleaseSeat 1 GOVERNANCE_ROUND 9 sRel0).1 = some KonErr.keyError ∧
    (opReleaseSeat 1 GOVERNANCE_ROUND 9 sRel0).2 ≠ sRel0 ∧
    (opReleaseSeat 1 GOVERNANCE_ROUND 9 sRel0).2.seats.getD 1 defaultSeat ≠
      sRel0.seats.getD 1 defaultSeat ∧
    balance_of (opReleaseSeat 1 GOVERNANCE_ROUND 9 sRel0).2 GOVERNANCE_ROUND =
      balance_of sRel0 GOVERNANCE_ROUND :=
  ⟨reachable_sRel0, by decide, by decide, by decide, by decide⟩

/-- C10 (counterexample): the conservation equation
`sum(balances) + sum(stakes) = total_supply` holds in the reachable state
`sRel0` but is *not* preserved by the `release_seat` invocation that raises
`KeyError` mid-mutation: afterwards the 10000-token stake is in neither the
balances nor any seat record. -/
theorem c10_keyerror_conservation_counterexample :
    Reachable sRel0 ∧
    sumVals sRel0.balances + sumStakes sRel0.seats = sRel0.total_supply ∧
    (opReleaseSeat 1 GOVERNANCE_ROUND 9 sRel0).1 = some KonErr.keyError ∧
    sumVals (opReleaseSeat 1 GOVERNANCE_ROUND 9 sRel0).2.balances +
        sumStakes (opReleaseSeat 1 GOVERNANCE_ROUND 9 sRel0).2.seats ≠
      (opReleaseSeat 1 GOVERNANCE_ROUND 9 sRel0).2.total_supply :=
  ⟨reachable_sRel0, by decide, by decide, by decide⟩

/-- C10 (amended): the conservation equation holds in every reachable
state and is preserved by every public operation that completes without
raising. -/
theorem c10_conservation_preserved (s s' : EngineState) (h : Reachable s)
    (hstep : StepOk s s') :
    sumVals s.balances + sumStakes s.seats = s.total_supply ∧
    sumVals s'.balances + sumStakes s'.seats = s'.total_supply :=
  ⟨(good_of_reachable h).conservation,
    (good_step (good_of_reachable h) hstep).conservation⟩

theorem c10_conservation_preserved_witness :
    sumVals (initEngine 0).balances + sumStakes (initEngine 0).seats =
      (initEngine 0).total_supply ∧
    sumVals sUnlocked.balances + sumStakes sUnlocked.seats =
      sUnlocked.total_supply :=
  c10_conservation_preserved (initEngine 0) sUnlocked
    ⟨0, Relation.ReflTransGen.refl⟩
    ⟨KonOp.setTableUnlocked true GOVERNANCE_ROUND 7, by decide⟩

/-- C2 (counterexample): with the sender and receiver equal (a case the
claim's quantification allows), a successful `transfer(from, from,
1000·10^18, from)` with fee basis 50 and a distinct fee recipient debits
the sender only by the 5·10^18 fee, not by 1000·10^18. -/
theorem c2_self_transfer_counterexample :
    (initEngine 0).transfer_fee_basis = 50 ∧
    (initEngine 0).fee_recipient ≠ zero_addr ∧
    (initEngine 0).fee_recipient ≠ normalize_addr GOVERNANCE_ROUND ∧
    (opTransfer GOVERNANCE_ROUND GOVERNANCE_ROUND (1000 * KON_SCALE)
      GOVERNANCE_ROUND (initEngine 0)).1 = none ∧
    balance_of (opTransfer GOVERNANCE_ROUND GOVERNANCE_ROUND
        (1000 * KON_SCALE) GOVERNANCE_ROUND (initEngine 0)).2
        GOVERNANCE_ROUND =
      balance_of (initEngine 0) GOVERNANCE_ROUND - 5 * KON_SCALE ∧
    balance_of (opTransfer GOVERNANCE_ROUND GOVERNANCE_ROUND
        (1000 * KON_SCALE) GOVERNANCE_ROUND (initEngine 0)).2
        GOVERNANCE_ROUND ≠
      balance_of (initEngine 0) GOVERNANCE_ROUND - 1000 * KON_SCALE :=
  ⟨by decide, by decide, by decide, by decide, by decide, by decide⟩

/-- C2 (amended, sender distinct from receiver): a successful transfer
between three pairwise-distinct entries debits the sender by the gross
amount, credits the receiver with `amount - fee`, credits the fee
recipient with `fee = amount * basis // 10000` (zero fee deducts
nothing), and logs the net amount; with fee basis 50 and amount
1000·10^18 the deltas are −1000·10^18, +995·10^18 and +5·10^18. -/
theorem c2_transfer_fee_deltas :
    (∀ (s s' : EngineState) (f t snd : String) (a : Int),
      opTransfer f t a snd s = (none, s') →
      normalize_addr f ≠ normalize_addr t →
      s.fee_recipient ≠ normalize_addr f →
      s.fee_recipient ≠ normalize_addr t →
      balance_of s' f = balance_of s f - a ∧
      balance_of s' t = balance_of s t + (a - transferFeeOf s a) ∧
      (alookup s'.balances s.fee_recipient).getD 0 =
        (alookup s.balances s.fee_recipient).getD 0 + transferFeeOf s a ∧
      s'.events = s.events ++ [KonEvent.transferEv (normalize_addr f)
        (normalize_addr t) (a - transferFeeOf s a)]) ∧
    (∀ (s s' : EngineState) (f t snd : String),
      s.transfer_fee_basis = 50 →
      s.fee_recipient ≠ zero_addr →
      opTransfer f t (1000 * KON_SCALE) snd s = (none, s') →
      normalize_addr f ≠ normalize_addr t →
      s.fee_recipient ≠ normalize_addr f →
      s.fee_recipient ≠ normalize_addr t →
      balance_of s' f = balance_of s f - 1000 * KON_SCALE ∧
      balance_of s' t = balance_of s t + 995 * KON_SCALE ∧
      (alookup s'.balances s.fee_recipient).getD 0 =
        (alookup s.balances s.fee_recipient).getD 0 + 5 * KON_SCALE ∧
      s'.events = s.events ++ [KonEvent.transferEv (normalize_addr f)
        (normalize_addr t) (995 * KON_SCALE)]) := by
  constructor
  · intro s s' f t snd a h hft hf hr
    exact (opTransfer_spec h hft hf hr).2
  · intro s s' f t snd hb hfr h hft hf hr
    have hfee : transferFeeOf s (1000 * KON_SCALE) = 5 * KON_SCALE := by
      rw [transferFeeOf, if_pos ⟨by omega, hfr⟩, hb]
      decide
    obtain ⟨-, h1, h2, h3, h4⟩ := opTransfer_spec h hft hf hr
    rw [hfee] at h2 h3 h4
    refine ⟨h1, by omega, by omega, ?_⟩
    rw [h4, show 1000 * KON_SCALE - 5 * KON_SCALE = 995 * KON_SCALE by omega]

theorem c2_transfer_fee_deltas_witness :
    balance_of (opTransfer GOVERNANCE_ROUND SEAT_REGISTRAR
        (1000 * KON_SCALE) GOVERNANCE_ROUND (initEngine 0)).2
        GOVERNANCE_ROUND =
      balance_of (initEngine 0) GOVERNANCE_ROUND - 1000 * KON_SCALE ∧
    balance_of (opTransfer GOVERNANCE_ROUND SEAT_REGISTRAR
        (1000 * KON_SCALE) GOVERNANCE_ROUND (initEngine 0)).2
        SEAT_REGISTRAR =
      balance_of (initEngine 0) SEAT_REGISTRAR + 995 * KON_SCALE ∧
    (alookup (opTransfer GOVERNANCE_ROUND SEAT_REGISTRAR
        (1000 * KON_SCALE) GOVERNANCE_ROUND (initEngine 0)).2.balances
        (initEngine 0).fee_recipient).getD 0 =
      (alookup (initEngine 0).balances
        (initEngine 0).fee_recipient).getD 0 + 5 * KON_SCALE ∧
    (opTransfer GOVERNANCE_ROUND SEAT_REGISTRAR (1000 * KON_SCALE)
        GOVERNANCE_ROUND (initEngine 0)).2.events =
      (initEngine 0).events ++ [KonEvent.transferEv
        (normalize_addr GOVERNANCE_ROUND) (normalize_addr SEAT_REGISTRAR)
        (995 * KON_SCALE)] :=
  c2_transfer_fee_deltas.2 (initEngine 0) _ GOVERNANCE_ROUND SEAT_REGISTRAR
    GOVERNANCE_ROUND (by decide) (by decide) (by decide) (by decide)
    (by decide) (by decide)

/-- C5: `batch_claim_seats` rejects batches longer than 50 outright with
the state untouched; otherwise it runs `claim_seat` sequentially in list
order, and when the claim at position `k` raises, the error propagates
with the first `k` claims still applied (no rollback). -/
theorem c5_batch_claim_seats :
    (∀ (s : EngineState) (claims : List (Int × String × Int)) (blk : Int),
      50 < claims.length →
      batch_claim_seats claims blk s = (some KonErr.claimBatchTooLarge, s)) ∧
    (∀ (s : EngineState) (claims : List (Int × String × Int)) (blk : Int),
      claims.length ≤ 50 →
      batch_claim_seats claims blk s = batchGo claims blk s) ∧
    (∀ (s sk s1 : EngineState) (claims : List (Int × String × Int))
      (blk : Int) (k : Nat) (e : KonErr),
      claims.length ≤ 50 → k < claims.length →
      batchGo (claims.take k) blk s = (none, sk) →
      opClaimSeat (claims.getD k defaultClaim).1
        (claims.getD k defaultClaim).2.1
        (claims.getD k defaultClaim).2.2 blk sk = (some e, s1) →
      batch_claim_seats claims blk s = (some e, sk)) := by
  refine ⟨?_, ?_, ?_⟩
  · intro s claims blk h
    simp only [batch_claim_seats, MAX_CLAIM_PER_TX]
    rw [if_pos (by omega)]
  · intro s claims blk h
    simp only [batch_claim_seats, MAX_CLAIM_PER_TX]
    rw [if_neg (by omega)]
  · intro s sk s1 claims blk k e hlen hk hpre herr
    simp only [batch_claim_seats, MAX_CLAIM_PER_TX]
    rw [if_neg (by omega)]
    exact batchGo_prefix_err hk hpre herr

theorem c5_batch_claim_seats_witness :
    batch_claim_seats (List.replicate 51 defaultClaim) 0 (initEngine 0) =
      (some KonErr.claimBatchTooLarge, initEngine 0) :=
  c5_batch_claim_seats.1 (initEngine 0) (List.replicate 51 defaultClaim) 0
    (by simp)

theorem c6_claim_release_round_trip_witness :
    ∃ s2, opReleaseSeat 0 GOVERNANCE_ROUND 9 sClaim0 = (none, s2) ∧
      balance_of s2 GOVERNANCE_ROUND = balance_of sUnlocked GOVERNANCE_ROUND ∧
      s2.seats.getD (0 : Int).toNat defaultSeat =
        ⟨0, "", 0, 0, SeatStatus.vacant⟩ ∧
      alookup s2.seat_by_knight (normalize_addr GOVERNANCE_ROUND) = none :=
  @claim_release_round_trip sUnlocked sClaim0 0 GOVERNANCE_ROUND
    KON_MIN_STAKE_FOR_SEAT 3 9 (by decide) (by decide) (by decide)

/-- C7 (counterexample): `"0xab"` and `"0Xab"` differ only in the letter
case of the `x`, yet `_normalize_addr` strips only a lowercase `"0x"`
prefix, so the two resolve to different ledger entries. -/
theorem c7_case_prefix_counterexample :
    ("0xab" : String).data.length = ("0Xab" : String).data.length ∧
    ("0xab" : String).data.map Char.toLower =
      ("0Xab" : String).data.map Char.toLower ∧
    normalize_addr "0xab" ≠ normalize_addr "0Xab" ∧
    balance_of { initEngine 0 with
        balances := [(normalize_addr "0xab", 7)] } "0xab" ≠
      balance_of { initEngine 0 with
        balances := [(normalize_addr "0xab", 7)] } "0Xab" :=
  ⟨by decide, by decide, by decide, by decide⟩

/-- C7 (amended): normalization is idempotent, every balance lookup
resolves an address and its normalized form to the same entry, the result
is always `0x` followed by 40 lowercase-stable characters, and two hex
strings that differ only in letter case outside a *lowercase* `0x` prefix,
or in left zero-padding, normalize identically. -/
theorem c7_normalization :
    (∀ s : String, normalize_addr (normalize_addr s) = normalize_addr s) ∧
    (∀ (st : EngineState) (a : String),
      balance_of st (normalize_addr a) = balance_of st a) ∧
    (∀ s : String, ∃ t, (normalize_addr s).data = '0' :: 'x' :: t ∧
      t.length = 40 ∧ ∀ c ∈ t, Char.toLower c = c) ∧
    (∀ l1 l2 : List Char, (∀ c ∈ l1, isHexDigit c = true) →
      (∀ c ∈ l2, isHexDigit c = true) →
      l1.map Char.toLower = l2.map Char.toLower →
      normalize_addr (String.mk l1) = normalize_addr (String.mk l2) ∧
      normalize_addr (String.mk ('0' :: 'x' :: l1)) =
        normalize_addr (String.mk ('0' :: 'x' :: l2))) ∧
    (∀ l : List Char, (∀ c ∈ l, isHexDigit c = true) →
      normalize_addr (String.mk ('0' :: 'x' :: l)) =
        normalize_addr (String.mk l)) ∧
    (∀ l : List Char, (∀ c ∈ l, isHexDigit c = true) →
      normalize_addr (String.mk ('0' :: l)) =
        normalize_addr (String.mk l)) := by
  refine ⟨normalize_addr_idem, balance_of_normalize, ?_, ?_, ?_, ?_⟩
  · intro s
    obtain ⟨t, ht, hlen, hlow, -⟩ := normalize_chars_shape s.data
    exact ⟨t, by simpa [normalize_addr] using ht, hlen, hlow⟩
  · intro l1 l2 h1 h2 heq
    constructor
    · refine congrArg String.mk ?_
      show normalize_addr_chars l1 = normalize_addr_chars l2
      rw [normalize_hex _ h1, normalize_hex _ h2]
      simp only [pyLower, heq]
    · refine congrArg String.mk ?_
      show normalize_addr_chars ('0' :: 'x' :: l1) =
        normalize_addr_chars ('0' :: 'x' :: l2)
      rw [normalize_hex_prefixed _ h1, normalize_hex_prefixed _ h2]
      simp only [pyLower, heq]
  · intro l hl
    refine congrArg String.mk ?_
    show normalize_addr_chars ('0' :: 'x' :: l) = normalize_addr_chars l
    rw [normalize_hex_prefixed _ hl, normalize_hex _ hl]
  · intro l hl
    refine congrArg String.mk ?_
    show normalize_addr_chars ('0' :: l) = normalize_addr_chars l
    exact normalize_hex_pad l hl

theorem c7_normalization_witness :
    normalize_addr (normalize_addr " 0xAb") = normalize_addr " 0xAb" ∧
    normalize_addr (String.mk ['A', 'b']) =
      normalize_addr (String.mk ['a', 'B']) ∧
    normalize_addr (String.mk ('0' :: 'x' :: ['a', 'b'])) =
      normalize_addr (String.mk ['a', 'b']) ∧
    normalize_addr (String.mk ('0' :: ['a', 'b'])) =
      normalize_addr (String.mk ['a', 'b']) :=
  ⟨c7_normalization.1 _,
   (c7_normalization.2.2.2.1 ['A', 'b'] ['a', 'B'] (by decide) (by decide)
     (by decide)).1,
   c7_normalization.2.2.2.2.1 ['a', 'b'] (by decide),
   c7_normalization.2.2.2.2.2 ['a', 'b'] (by decide)⟩

/-- C8 (counterexample): `approve` performs no sign check, so a reachable
state can hold a negative allowance. -/
theorem c8_negative_allowance_counterexample :
    Reachable (opApprove GOVERNANCE_ROUND SEAT_REGISTRAR (-1)
      (initEngine 0)).2 ∧
    (opApprove GOVERNANCE_ROUND SEAT_REGISTRAR (-1) (initEngine 0)).1 =
      none ∧
    allowanceOf (opApprove GOVERNANCE_ROUND SEAT_REGISTRAR (-1)
      (initEngine 0)).2 GOVERNANCE_ROUND SEAT_REGISTRAR < 0 :=
  ⟨⟨0, Relation.ReflTransGen.tail Relation.ReflTransGen.refl
    ⟨KonOp.approve GOVERNANCE_ROUND SEAT_REGISTRAR (-1), by decide⟩⟩,
   by decide, by decide⟩

/-- C8 (amended): along histories in which every `approve` amount is
non-negative, every allowance value is non-negative; `approve` raises
`ZeroAddress` exactly when an address normalizes to the zero sentinel and
otherwise overwrites the entry with the given amount (any integer). -/
theorem c8_allowances :
    (∀ s : EngineState, ReachableNN s →
      ∀ o sp : String, 0 ≤ allowanceOf s o sp) ∧
    (∀ (o sp : String) (a : Int) (s : EngineState),
      (normalize_addr o = zero_addr ∨ normalize_addr sp = zero_addr →
        opApprove o sp a s = (some KonErr.zeroAddress, s)) ∧
      (normalize_addr o ≠ zero_addr → normalize_addr sp ≠ zero_addr →
        ∃ s', opApprove o sp a s = (none, s') ∧
          allowanceOf s' o sp = a)) := by
  constructor
  · intro s h o sp
    have hA := allowNonneg_of_reachableNN h
    rw [allowanceOf]
    cases hl : alookup s.allowances (normalize_addr o, normalize_addr sp) with
    | none => simp
    | some v => simpa using hA _ (alookup_mem hl)
  · intro o sp a s
    refine ⟨(opApprove_spec o sp a s).1, ?_⟩
    intro h1 h2
    refine ⟨_, (opApprove_spec o sp a s).2 h1 h2, ?_⟩
    simp [allowanceOf, alookup_aset_self]

theorem c8_allowances_witness :
    (0 ≤ allowanceOf (initEngine 0) GOVERNANCE_ROUND SEAT_REGISTRAR) ∧
    (∃ s', opApprove GOVERNANCE_ROUND SEAT_REGISTRAR 5 (initEngine 0) =
      (none, s') ∧ allowanceOf s' GOVERNANCE_ROUND SEAT_REGISTRAR = 5) :=
  ⟨c8_allowances.1 (initEngine 0) ⟨0, Relation.ReflTransGen.refl⟩ _ _,
   (c8_allowances.2 GOVERNANCE_ROUND SEAT_REGISTRAR 5 (initEngine 0)).2
     (by decide) (by decide)⟩

/-- C9 (code bug): `get_kok_metadata` returns `KOK_METADATA[i].copy()`, a
*shallow* copy whose `attributes` list is the canonical one.  In-range and
out-of-range lookups behave as claimed, but a caller appending to the
attributes list reached through the returned record corrupts the canonical
table. -/
theorem c9_shallow_copy_attributes :
    get_kok_metadata 0 = some (KOK_METADATA.getD 0 defaultMeta) ∧
    get_kok_metadata 16 = none ∧
    get_kok_metadata (-1) = none ∧
    canonicalAttributes
        (appendAttrThroughCopy KOK_ATTR_STORE
          ((get_kok_metadata 0).getD defaultMeta)
          ⟨"Injected", KokAttrValue.intV 0⟩) 0 ≠
      canonicalAttributes KOK_ATTR_STORE 0 :=
  ⟨by decide, by decide, by decide, by decide⟩
